import Mathlib

/-!
Verification of the mutation differ (`differ/mutationDiffer.go`).

This file shallow-embeds the data model and the operations of the mutation
differ: the comparison predicate `areGetResultsTheSame`, the per-key
classification performed by `DifferWorker.diff`, the batch completion
machinery (`NewBatch`, the get callback, `batch.send`), the retry wrapper
`DifferWorker.sendBatchWithRetry`, the worker batch loop
`DifferWorker.getResults`, the orchestrator-level merge (`addDiff`,
`addKeysWithError`) and the output writing (`MutationDiffer.writeDiff`).

Go maps are embedded as association lists (`List (String × α)`) with
overwrite-on-insert (`upsert`); map iteration order is the list order
(Go's iteration order is unspecified, and every statement proved below is
order-insensitive: it speaks about membership and lookups only).
Asynchronous fetch callbacks are embedded as explicit event lists: the
events that land before the batch timeout, each applied atomically to the
batch state in order.  `uint32` counters are `Nat` taken modulo `2^32` at
each increment.
-/

namespace Differ

/-- `KeyNotFoundErrMsg` (mutationDiffer.go:28). -/
def KeyNotFoundErrMsg : String := "key not found"

/-- Document snapshot returned by a fetch (`gocbcore.GetResult`): value bytes
(a Go `[]byte`, where the `nil` slice is distinct from the empty slice under
`reflect.DeepEqual`, hence an `Option`), flags (`uint32`), datatype tag
(`uint8`) and CAS/version token (`uint64`). -/
structure GocbGetResult where
  Value : Option (List Nat)
  Flags : Nat
  Datatype : Nat
  Cas : Nat
deriving Repr, DecidableEq

/-- Per-key per-side result slot (`GetResult`, mutationDiffer.go:534-539).
The Go struct also holds a `sync.RWMutex` which carries no data and is
dropped here; `Clone` is a shallow copy, i.e. the identity on these three
fields.  `Key = ""` is the state of a freshly pre-populated entry whose
callback has not yet completed. -/
structure GetResult where
  Key : String
  Result : Option GocbGetResult
  Error : Option String
deriving Repr, DecidableEq

/-- The pre-populated placeholder entry (`&GetResult{}`, mutationDiffer.go:458). -/
def emptyGetResult : GetResult := { Key := "", Result := none, Error := none }

/-- `isKeyNotFoundError` (mutationDiffer.go:519-521):
`err != nil && err.Error() == KeyNotFoundErrMsg`. -/
def isKeyNotFoundError : Option String → Bool
  | none => false
  | some msg => msg == KeyNotFoundErrMsg

/-- `areGetResultsTheSame` (mutationDiffer.go:523-532).  `reflect.DeepEqual`
on two `[]byte` values is equality of the corresponding `Option (List Nat)`
(nil ≠ empty, otherwise element-wise). -/
def areGetResultsTheSame (result1 result2 : Option GocbGetResult) : Bool :=
  match result1 with
  | none => result2.isNone
  | some r1 =>
    match result2 with
    | none => false
    | some r2 =>
      r1.Value == r2.Value && r1.Flags == r2.Flags &&
        r1.Datatype == r2.Datatype && r1.Cas == r2.Cas

/-- The per-key decision of `DifferWorker.diff` (mutationDiffer.go:409-431),
one constructor per branch of the loop body. -/
inductive DiffClassification where
  | skipped
  | missingFromSource (doc : Option GocbGetResult)
  | missingFromTarget (doc : Option GocbGetResult)
  | mismatch (sourceDoc targetDoc : Option GocbGetResult)
  | matched
deriving Repr, DecidableEq

/-- The body of the loop in `DifferWorker.diff` (mutationDiffer.go:409-431)
for one key, with one constructor per `continue` branch: skip when either
side's entry was never completed (`Key == ""`), then the two not-found
tests, then the value comparison; a pair surviving all tests is a match. -/
def classifyKey (sourceResult targetResult : GetResult) : DiffClassification :=
  if sourceResult.Key == "" then .skipped
  else if targetResult.Key == "" then .skipped
  else if isKeyNotFoundError sourceResult.Error &&
      !isKeyNotFoundError targetResult.Error then
    .missingFromSource targetResult.Result
  else if !isKeyNotFoundError sourceResult.Error &&
      isKeyNotFoundError targetResult.Error then
    .missingFromTarget sourceResult.Result
  else if !areGetResultsTheSame sourceResult.Result targetResult.Result then
    .mismatch sourceResult.Result targetResult.Result
  else .matched

/-! ### Association lists (Go maps) -/

/-- Go map lookup `m[k]` embedded on an association list. -/
def alookup : List (String × α) → String → Option α
  | [], _ => none
  | (k', v) :: rest, k => if k' = k then some v else alookup rest k

/-- Go map assignment `m[k] = v`: overwrite the existing entry in place,
or append a new one. -/
def upsert (m : List (String × α)) (k : String) (v : α) : List (String × α) :=
  match m with
  | [] => [(k, v)]
  | (k', v') :: rest => if k' = k then (k, v) :: rest else (k', v') :: upsert rest k v

/-- The keys of an association list. -/
def akeys (m : List (String × α)) : List String := m.map Prod.fst

/-! ### Worker-local diff (`DifferWorker.diff`) -/

/-- The three worker-local diff mappings built by `DifferWorker.diff`
(mutationDiffer.go:405-407); the Go `diff` value `[]*gocbcore.GetResult{src, tgt}`
is embedded as the pair `(src, tgt)`. -/
structure WorkerDiff where
  missingFromSource : List (String × Option GocbGetResult)
  missingFromTarget : List (String × Option GocbGetResult)
  diff : List (String × (Option GocbGetResult × Option GocbGetResult))
deriving Repr, DecidableEq

def emptyWorkerDiff : WorkerDiff := ⟨[], [], []⟩

/-- One iteration of the loop body of `DifferWorker.diff`
(mutationDiffer.go:420-431): route the key into the mapping selected by its
classification; `skipped` and `matched` keys are dropped. -/
def diffStep (acc : WorkerDiff) (key : String) (sourceResult targetResult : GetResult) :
    WorkerDiff :=
  match classifyKey sourceResult targetResult with
  | .skipped => acc
  | .missingFromSource doc =>
    { acc with missingFromSource := upsert acc.missingFromSource key doc }
  | .missingFromTarget doc =>
    { acc with missingFromTarget := upsert acc.missingFromTarget key doc }
  | .mismatch s t => { acc with diff := upsert acc.diff key (s, t) }
  | .matched => acc

/-- `DifferWorker.diff` (mutationDiffer.go:404-434): iterate over the worker's
source results, look up the matching target entry, and classify.  A key
absent from `targetResults` would dereference a nil pointer in Go; it is
unreachable, because both worker maps always receive exactly the same key
set (every batch pre-populates and merges both sides for the same keys). -/
def diffWorker (sourceResults targetResults : List (String × GetResult)) : WorkerDiff :=
  sourceResults.foldl
    (fun acc e =>
      match alookup targetResults e.1 with
      | none => acc
      | some targetResult => diffStep acc e.1 e.2 targetResult)
    emptyWorkerDiff

/-! ### Output writing (`MutationDiffer.writeDiff`) -/

/-- The three output artifacts of `MutationDiffer.writeDiff`. -/
inductive Artifact where
  | diffKeysFile
  | errorKeysFile
  | diffDetailsFile
deriving Repr, DecidableEq

/-- `MutationDiffer.writeDiff` (mutationDiffer.go:176-194), parameterized by
the outcome of each underlying write (`none` = success, `some msg` = failure):
`writeKeysWithDiff` first, returning its error immediately on failure; then
`writeKeysWithError`, returning its error immediately on failure; then
`writeDiffDetails`, whose error is reported and returned.  The first
component lists the writes that were actually attempted, in order. -/
def writeDiff (keysWithDiffOutcome keysWithErrorOutcome diffDetailsOutcome : Option String) :
    List Artifact × Option String :=
  match keysWithDiffOutcome with
  | some err => ([.diffKeysFile], some err)
  | none =>
    match keysWithErrorOutcome with
    | some err => ([.diffKeysFile, .errorKeysFile], some err)
    | none => ([.diffKeysFile, .errorKeysFile, .diffDetailsFile], diffDetailsOutcome)

/-! ## Claims about the comparator and the output writer -/

/-- Claim C2, counterexample: a key whose source fetch completed with a
fetch error that is not the not-found sentinel while the target fetch
succeeded is NOT skipped by the comparator — it is classified as a
`Mismatch` (the nil source document differs from the target document),
contradicting the claim that such keys are classified as none of
MissingFromSource/MissingFromTarget/Mismatch. -/
theorem c2_counterexample :
    classifyKey ⟨"k1", none, some "connection timed out"⟩
        ⟨"k1", some ⟨some [104, 105], 0, 1, 42⟩, none⟩ =
      .mismatch none (some ⟨some [104, 105], 0, 1, 42⟩) := by
  decide

/-- Claim C2 (amended): a completed pair of side results (both entries have a
non-empty `Key`, i.e. both callbacks landed) is never skipped, regardless of
any fetch errors it carries; a non-not-found fetch error does not exempt the
key from classification.  Instead the usual chain decides: exactly-one-side
not-found gives a Missing classification, and otherwise the document
comparison yields `Mismatch` or `Match`. -/
theorem c2_completed_never_skipped (sr tr : GetResult)
    (hsk : sr.Key ≠ "") (htk : tr.Key ≠ "") :
    classifyKey sr tr ≠ .skipped ∧
      classifyKey sr tr =
        (if isKeyNotFoundError sr.Error && !isKeyNotFoundError tr.Error then
          .missingFromSource tr.Result
        else if !isKeyNotFoundError sr.Error && isKeyNotFoundError tr.Error then
          .missingFromTarget sr.Result
        else if !areGetResultsTheSame sr.Result tr.Result then
          .mismatch sr.Result tr.Result
        else .matched) := by
  have h1 : (sr.Key == "") = false := by
    simpa using hsk
  have h2 : (tr.Key == "") = false := by
    simpa using htk
  unfold classifyKey
  rw [h1, h2]
  simp only [Bool.false_eq_true, if_false]
  constructor
  · split
    · intro h
      simp at h
    · split
      · intro h
        simp at h
      · split
        · intro h
          simp at h
        · intro h
          simp at h
  · trivial

/-- Claim C2 witness: a concrete completed pair where the source carries a
non-not-found error. -/
theorem c2_completed_never_skipped_witness :
    classifyKey ⟨"k1", none, some "connection timed out"⟩ ⟨"k1", none, none⟩ ≠ .skipped := by
  exact (c2_completed_never_skipped ⟨"k1", none, some "connection timed out"⟩
    ⟨"k1", none, none⟩ (by decide) (by decide)).1

/-- Claim C3, counterexample: when writing the diff-keys file fails, the
error-keys file and the diff-details file are NOT attempted (`writeDiff`
returns immediately), contradicting the claim that each artifact is
attempted independently and that the error-keys file is written
unconditionally. -/
theorem c3_counterexample :
    writeDiff (some "disk full") none none = ([.diffKeysFile], some "disk full") ∧
      Artifact.errorKeysFile ∉ (writeDiff (some "disk full") none none).1 ∧
      Artifact.diffDetailsFile ∉ (writeDiff (some "disk full") none none).1 := by
  refine ⟨rfl, ?_, ?_⟩ <;> decide

/-- Claim C3 (amended): the three artifacts are attempted in the fixed order
diff-keys, error-keys, diff-details, with an early return on failure of
either of the first two: only the diff-keys file is written unconditionally;
the error-keys file is attempted exactly when the diff-keys write succeeded;
the diff-details file is attempted exactly when both earlier writes
succeeded (so only a diff-details failure leaves the other artifacts
unaffected, it being the last step). -/
theorem c3_write_order (wk we wd : Option String) :
    Artifact.diffKeysFile ∈ (writeDiff wk we wd).1 ∧
      (Artifact.errorKeysFile ∈ (writeDiff wk we wd).1 ↔ wk = none) ∧
      (Artifact.diffDetailsFile ∈ (writeDiff wk we wd).1 ↔ wk = none ∧ we = none) := by
  cases wk <;> cases we <;> simp [writeDiff]

/-- Claim C7: for a key whose fetch succeeded on both sides (no error, a
document present on each side), the comparator compares the document value,
the flags, the datatype tag and the CAS token for exact equality: all four
equal gives `Match` (dropped), any difference gives `Mismatch` carrying the
pair (source document, target document). -/
theorem c7_compare_fields (sr tr : GetResult) (a b : GocbGetResult)
    (hsk : sr.Key ≠ "") (htk : tr.Key ≠ "")
    (hse : sr.Error = none) (hte : tr.Error = none)
    (hsr : sr.Result = some a) (htr : tr.Result = some b) :
    classifyKey sr tr =
      if a.Value = b.Value ∧ a.Flags = b.Flags ∧ a.Datatype = b.Datatype ∧ a.Cas = b.Cas then
        .matched
      else .mismatch (some a) (some b) := by
  have h1 : (sr.Key == "") = false := by simpa using hsk
  have h2 : (tr.Key == "") = false := by simpa using htk
  unfold classifyKey
  rw [h1, h2, hse, hte, hsr, htr]
  simp only [isKeyNotFoundError, areGetResultsTheSame]
  by_cases hv : a.Value = b.Value <;> by_cases hf : a.Flags = b.Flags <;>
    by_cases hd : a.Datatype = b.Datatype <;> by_cases hc : a.Cas = b.Cas <;>
    simp [hv, hf, hd, hc]

/-- Claim C7 witness: two concrete successful fetches differing only in CAS
are a mismatch. -/
theorem c7_compare_fields_witness :
    classifyKey ⟨"k1", some ⟨some [1], 2, 3, 4⟩, none⟩ ⟨"k1", some ⟨some [1], 2, 3, 5⟩, none⟩ =
      .mismatch (some ⟨some [1], 2, 3, 4⟩) (some ⟨some [1], 2, 3, 5⟩) := by
  rw [c7_compare_fields ⟨"k1", some ⟨some [1], 2, 3, 4⟩, none⟩
    ⟨"k1", some ⟨some [1], 2, 3, 5⟩, none⟩ ⟨some [1], 2, 3, 4⟩ ⟨some [1], 2, 3, 5⟩
    (by decide) (by decide) rfl rfl rfl rfl]
  decide

/-- Claim C8: for a completed pair of side results, source not-found with
target not not-found is classified `MissingFromSource` carrying the target's
document, and symmetrically target not-found with source not not-found is
classified `MissingFromTarget` carrying the source's document. -/
theorem c8_missing_classification (sr tr : GetResult)
    (hsk : sr.Key ≠ "") (htk : tr.Key ≠ "") :
    (isKeyNotFoundError sr.Error = true → isKeyNotFoundError tr.Error = false →
      classifyKey sr tr = .missingFromSource tr.Result) ∧
      (isKeyNotFoundError sr.Error = false → isKeyNotFoundError tr.Error = true →
        classifyKey sr tr = .missingFromTarget sr.Result) := by
  have h1 : (sr.Key == "") = false := by simpa using hsk
  have h2 : (tr.Key == "") = false := by simpa using htk
  constructor
  · intro hs ht
    unfold classifyKey
    rw [h1, h2, hs, ht]
    simp
  · intro hs ht
    unfold classifyKey
    rw [h1, h2, hs, ht]
    simp

/-- Claim C8 witness: source not-found, target present. -/
theorem c8_missing_classification_witness :
    classifyKey ⟨"k1", none, some KeyNotFoundErrMsg⟩ ⟨"k1", some ⟨some [7], 0, 0, 9⟩, none⟩ =
      .missingFromSource (some ⟨some [7], 0, 0, 9⟩) := by
  exact (c8_missing_classification ⟨"k1", none, some KeyNotFoundErrMsg⟩
    ⟨"k1", some ⟨some [7], 0, 0, 9⟩, none⟩ (by decide) (by decide)).1 (by decide) (by decide)

/-- Claim C10: a key whose fetch completed on both sides with the not-found
error on both (and hence a nil document on both) is classified as a `Match`
— the nil-document equality check returns true — so `diffStep` adds it to
none of the three diff mappings (and it therefore cannot reach the diff-keys
output, which is built from those mappings). -/
theorem c10_both_not_found_match (sr tr : GetResult) (acc : WorkerDiff) (k : String)
    (hsk : sr.Key ≠ "") (htk : tr.Key ≠ "")
    (hse : sr.Error = some KeyNotFoundErrMsg) (hte : tr.Error = some KeyNotFoundErrMsg)
    (hsr : sr.Result = none) (htr : tr.Result = none) :
    classifyKey sr tr = .matched ∧ diffStep acc k sr tr = acc := by
  have h1 : (sr.Key == "") = false := by simpa using hsk
  have h2 : (tr.Key == "") = false := by simpa using htk
  have hc : classifyKey sr tr = .matched := by
    unfold classifyKey
    rw [h1, h2, hse, hte, hsr, htr]
    simp [isKeyNotFoundError, areGetResultsTheSame]
  exact ⟨hc, by rw [diffStep, hc]⟩

/-- Claim C10 witness: both sides not-found. -/
theorem c10_both_not_found_match_witness :
    classifyKey ⟨"k1", none, some KeyNotFoundErrMsg⟩ ⟨"k1", none, some KeyNotFoundErrMsg⟩ =
      .matched := by
  exact (c10_both_not_found_match ⟨"k1", none, some KeyNotFoundErrMsg⟩
    ⟨"k1", none, some KeyNotFoundErrMsg⟩ emptyWorkerDiff "k1"
    (by decide) (by decide) rfl rfl rfl rfl).1

/-! ### The worker batch loop (`DifferWorker.getResults`) -/

/-- The index ranges `(startIndex, endIndex)` produced by the loop of
`DifferWorker.getResults` (mutationDiffer.go:351-368): while
`index + batchSize < len(keys)` emit `(index, index + batchSize)` and
advance, otherwise emit the final `(index, len(keys))` and stop (or stop at
once when `index ≥ len(keys)`).  The first argument is recursion fuel;
`L - index` units suffice, since every recursive step advances `index` by
`B ≥ 1`.  (With `B = 0` and a nonempty key slice the Go loop never
terminates, so every statement below assumes `0 < B`.) -/
def batchRanges : Nat → Nat → Nat → Nat → List (Nat × Nat)
  | 0, _, _, _ => []
  | fuel + 1, L, B, index =>
    if L ≤ index then []
    else if index + B < L then (index, index + B) :: batchRanges fuel L B (index + B)
    else [(index, L)]

/-- The batch ranges of a worker whose key slice has length `L`
(`DifferWorker.getResults` with `batchSize = B`). -/
def getResultsBatches (L B : Nat) : List (Nat × Nat) := batchRanges L L B 0

theorem batchRanges_ne_nil {fuel L B index : Nat} (hB : 0 < B)
    (hfuel : L - index ≤ fuel) (hidx : index < L) :
    batchRanges fuel L B index ≠ [] := by
  cases fuel with
  | zero => omega
  | succ fuel =>
    rw [batchRanges]
    rw [if_neg (by omega)]
    split <;> simp

theorem batchRanges_join_slices {α : Type} (ws : List α) :
    ∀ fuel L B index, ws.length = L → 0 < B → L - index ≤ fuel →
      ((batchRanges fuel L B index).map (fun r => (ws.drop r.1).take (r.2 - r.1))).flatten =
        ws.drop index := by
  intro fuel
  induction fuel with
  | zero =>
    intro L B index hL hB hfuel
    have : L ≤ index := by omega
    rw [batchRanges]
    simp [List.drop_eq_nil_of_le (by omega : ws.length ≤ index)]
  | succ fuel ih =>
    intro L B index hL hB hfuel
    rw [batchRanges]
    by_cases h1 : L ≤ index
    · rw [if_pos h1]
      simp [List.drop_eq_nil_of_le (by omega : ws.length ≤ index)]
    · rw [if_neg h1]
      by_cases h2 : index + B < L
      · rw [if_pos h2]
        rw [List.map_cons, List.flatten_cons, ih L B (index + B) hL hB (by omega)]
        have hBs : index + B - index = B := by omega
        rw [hBs]
        have hdd : ws.drop (index + B) = (ws.drop index).drop B := by
          rw [List.drop_drop]
        rw [hdd, List.take_append_drop]
      · rw [if_neg h2]
        simp only [List.map_cons, List.map_nil, List.flatten_cons, List.flatten_nil,
          List.append_nil]
        apply List.take_of_length_le
        rw [List.length_drop]
        omega

theorem batchRanges_sizes :
    ∀ fuel L B index, 0 < B → L - index ≤ fuel →
      (∀ r ∈ (batchRanges fuel L B index).dropLast, r.2 - r.1 = B) ∧
        (∀ r, (batchRanges fuel L B index).getLast? = some r →
          1 ≤ r.2 - r.1 ∧ r.2 - r.1 ≤ B) := by
  intro fuel
  induction fuel with
  | zero =>
    intro L B index hB hfuel
    rw [batchRanges]
    simp
  | succ fuel ih =>
    intro L B index hB hfuel
    rw [batchRanges]
    by_cases h1 : L ≤ index
    · rw [if_pos h1]
      simp
    · rw [if_neg h1]
      by_cases h2 : index + B < L
      · rw [if_pos h2]
        have hne : batchRanges fuel L B (index + B) ≠ [] :=
          batchRanges_ne_nil hB (by omega) (by omega)
        obtain ⟨r', rest', hrest⟩ : ∃ r' rest', batchRanges fuel L B (index + B) = r' :: rest' := by
          cases h : batchRanges fuel L B (index + B) with
          | nil => exact absurd h hne
          | cons a l => exact ⟨a, l, rfl⟩
        have ihspec := ih L B (index + B) hB (by omega)
        rw [hrest] at ihspec
        rw [hrest]
        constructor
        · intro r hr
          rw [List.dropLast_cons₂] at hr
          rcases List.mem_cons.mp hr with h | h
          · subst h
            show index + B - index = B
            omega
          · exact ihspec.1 r h
        · intro r hr
          rw [List.getLast?_cons_cons] at hr
          exact ihspec.2 r hr
      · rw [if_neg h2]
        constructor
        · intro r hr
          simp at hr
        · intro r hr
          simp only [List.getLast?_singleton, Option.some.injEq] at hr
          subst hr
          constructor
          · show 1 ≤ L - index
            omega
          · show L - index ≤ B
            omega

theorem batchRanges_bounds :
    ∀ fuel L B index, 0 < B → ∀ r ∈ batchRanges fuel L B index,
      index ≤ r.1 ∧ r.1 < r.2 ∧ r.2 ≤ L := by
  intro fuel
  induction fuel with
  | zero =>
    intro L B index hB r hr
    rw [batchRanges] at hr
    simp at hr
  | succ fuel ih =>
    intro L B index hB r hr
    rw [batchRanges] at hr
    by_cases h1 : L ≤ index
    · rw [if_pos h1] at hr
      simp at hr
    · rw [if_neg h1] at hr
      by_cases h2 : index + B < L
      · rw [if_pos h2] at hr
        rcases List.mem_cons.mp hr with h | h
        · subst h
          exact ⟨le_refl _, by show index < index + B; omega, by show index + B ≤ L; omega⟩
        · have := ih L B (index + B) hB r h
          omega
      · rw [if_neg h2] at hr
        simp only [List.mem_singleton] at hr
        subst hr
        exact ⟨le_refl _, by show index < L; omega, le_refl L⟩

theorem batchRanges_sum_sizes :
    ∀ fuel L B index, 0 < B → L - index ≤ fuel →
      (((batchRanges fuel L B index).map (fun r => r.2 - r.1)).sum = L - index) := by
  intro fuel
  induction fuel with
  | zero =>
    intro L B index hB hfuel
    rw [batchRanges]
    show 0 = L - index
    omega
  | succ fuel ih =>
    intro L B index hB hfuel
    rw [batchRanges]
    by_cases h1 : L ≤ index
    · rw [if_pos h1]
      show 0 = L - index
      omega
    · rw [if_neg h1]
      by_cases h2 : index + B < L
      · rw [if_pos h2]
        rw [List.map_cons, List.sum_cons, ih L B (index + B) hB (by omega)]
        show index + B - index + (L - (index + B)) = L - index
        omega
      · rw [if_neg h2]
        show L - index + 0 = L - index
        omega

/-! ### Association list lemmas -/

theorem alookup_eq_none_iff (m : List (String × α)) (k : String) :
    alookup m k = none ↔ k ∉ akeys m := by
  induction m with
  | nil => simp [alookup, akeys]
  | cons e rest ih =>
    obtain ⟨k', v⟩ := e
    by_cases h : k' = k
    · subst h
      simp [alookup, akeys]
    · simp [alookup, akeys, h, ih, Ne.symm h]

theorem alookup_cons (k1 : String) (v1 : α) (rest : List (String × α)) (k : String) :
    alookup ((k1, v1) :: rest) k = if k1 = k then some v1 else alookup rest k := rfl

theorem upsert_cons (k1 : String) (v1 : α) (rest : List (String × α)) (k : String) (v : α) :
    upsert ((k1, v1) :: rest) k v =
      if k1 = k then (k, v) :: rest else (k1, v1) :: upsert rest k v := rfl

theorem akeys_cons (k1 : String) (v1 : α) (rest : List (String × α)) :
    akeys ((k1, v1) :: rest) = k1 :: akeys rest := rfl

theorem alookup_isSome_iff (m : List (String × α)) (k : String) :
    (alookup m k).isSome = true ↔ k ∈ akeys m := by
  cases h : alookup m k with
  | none =>
    have := (alookup_eq_none_iff m k).mp h
    simp [this]
  | some v =>
    have hk : k ∈ akeys m := by
      by_contra hkn
      rw [← alookup_eq_none_iff] at hkn
      rw [h] at hkn
      exact Option.noConfusion hkn
    simp [hk]

theorem alookup_upsert_self (m : List (String × α)) (k : String) (v : α) :
    alookup (upsert m k v) k = some v := by
  induction m with
  | nil => simp [upsert, alookup]
  | cons e rest ih =>
    obtain ⟨k', v'⟩ := e
    by_cases h : k' = k
    · simp [upsert, h, alookup]
    · simp [upsert, h, alookup, ih]

theorem alookup_upsert_ne (m : List (String × α)) (k : String) (v : α) (k' : String)
    (h : k' ≠ k) : alookup (upsert m k v) k' = alookup m k' := by
  induction m with
  | nil => simp [upsert, alookup, Ne.symm h]
  | cons e rest ih =>
    obtain ⟨k1, v1⟩ := e
    by_cases h1 : k1 = k
    · subst h1
      simp [upsert, alookup, Ne.symm h]
    · by_cases h2 : k1 = k'
      · subst h2
        simp [upsert, h1, alookup]
      · simp [upsert, h1, alookup, h2, ih]

theorem akeys_upsert (m : List (String × α)) (k : String) (v : α) :
    akeys (upsert m k v) = if k ∈ akeys m then akeys m else akeys m ++ [k] := by
  induction m with
  | nil => simp [upsert, akeys]
  | cons e rest ih =>
    obtain ⟨k1, v1⟩ := e
    by_cases h1 : k1 = k
    · subst h1
      rw [upsert_cons, if_pos rfl, akeys_cons, akeys_cons,
        if_pos (List.mem_cons_self k1 (akeys rest))]
    · rw [upsert_cons, if_neg h1, akeys_cons, akeys_cons, ih]
      by_cases h2 : k ∈ akeys rest
      · rw [if_pos h2, if_pos (List.mem_cons_of_mem _ h2)]
      · rw [if_neg h2, if_neg (by simp [h2, Ne.symm h1]), List.cons_append]

theorem nodup_akeys_upsert (m : List (String × α)) (k : String) (v : α)
    (h : (akeys m).Nodup) : (akeys (upsert m k v)).Nodup := by
  rw [akeys_upsert]
  by_cases hm : k ∈ akeys m
  · simpa [hm] using h
  · rw [if_neg hm]
    simpa [List.nodup_append] using ⟨h, hm⟩

/-! ### The batch (`NewBatch`, the get callback, `batch.send`) -/

/-- One asynchronous get callback landing before the batch timeout
(`getCallbackFunc`, mutationDiffer.go:490-510): the key it was issued for,
the side, and the fetched document or error it delivers. -/
structure CBEvent where
  key : String
  isSource : Bool
  result : Option GocbGetResult
  error : Option String
deriving Repr, DecidableEq

/-- The state of one `batch` (mutationDiffer.go:436-445): the key slice, the
two per-side completion counters and the two pre-populated result maps.
The counters are `uint32` in Go; a batch observes at most `2·len(keys)`
increments, far below `2^32`, so they are plain `Nat` here. -/
structure BatchState where
  keys : List String
  sourceResultCount : Nat
  targetResultCount : Nat
  sourceResults : List (String × GetResult)
  targetResults : List (String × GetResult)
deriving Repr, DecidableEq

/-- `NewBatch` (mutationDiffer.go:447-463): pre-populate both result maps
with an empty placeholder entry for every key of the batch. -/
def NewBatch (keys : List String) : BatchState :=
  { keys := keys
    sourceResultCount := 0
    targetResultCount := 0
    sourceResults := keys.map (fun k => (k, emptyGetResult))
    targetResults := keys.map (fun k => (k, emptyGetResult)) }

/-- Overwrite the fields of the pre-existing placeholder entry for `k`
(`resultInMap.Key = ...; resultInMap.Result = ...; resultInMap.Error = ...`,
mutationDiffer.go:500-505).  A key with no placeholder would dereference a
nil pointer in Go; callbacks only ever fire for issued keys, which all have
placeholders, and here an absent key leaves the map unchanged. -/
def updateEntry (m : List (String × GetResult)) (k : String) (r : GetResult) :
    List (String × GetResult) :=
  m.map (fun e => if e.1 = k then (e.1, r) else e)

/-- One callback executing in full (`getCallbackFunc`,
mutationDiffer.go:490-510): increment the side's completion counter and
record key/result/error into the side's placeholder entry.  In Go these are
two separate atomic actions — the increment (:495/:498) strictly precedes
the entry write (:500-505) — and fusing them here means this coarse event
model is faithful only to the per-side counts and to `send`'s
success/failure decision, not to the entry contents visible when the
completion gate releases; `CBStep`/`applyCBStep` below model the two
actions separately.  (The release of the gate when the counter reaches
`len(keys)` is absorbed into `batchSend`'s final counter test.) -/
def applyCallback (b : BatchState) (e : CBEvent) : BatchState :=
  if e.isSource then
    { b with
      sourceResultCount := b.sourceResultCount + 1
      sourceResults := updateEntry b.sourceResults e.key ⟨e.key, e.result, e.error⟩ }
  else
    { b with
      targetResultCount := b.targetResultCount + 1
      targetResults := updateEntry b.targetResults e.key ⟨e.key, e.result, e.error⟩ }

/-- The batch state after the callbacks in `events` (those that land before
the timeout) have executed, in order, on a fresh batch. -/
def runBatch (keys : List String) (events : List CBEvent) : BatchState :=
  events.foldl applyCallback (NewBatch keys)

/-- `batch.send` (mutationDiffer.go:465-487): issue one fetch per key per
side and wait.  The wait group releases exactly when each per-side counter
reaches `len(keys)`; if that happens before the timer fires, `send` returns
nil, otherwise it returns the timeout error.  `events` are the callbacks
landing before the timeout, so `send` succeeds iff they drive both counters
to `len(keys)`; the resulting batch state is carried in the `ok` value.
Because `applyCallback` fuses each callback's increment with its write, a
success here entails every entry written — a guarantee the program does not
give at the moment `send` returns (mutationDiffer.go:393): use
`batchSendSteps` below for entry-content questions; this coarse form is
used only for the counters and the success/failure decision. -/
def batchSend (keys : List String) (events : List CBEvent) : Except String BatchState :=
  if (runBatch keys events).sourceResultCount = keys.length ∧
      (runBatch keys events).targetResultCount = keys.length then
    .ok (runBatch keys events)
  else .error "mutation differ batch timed out"

/-- Whether `batch.send` returned nil. -/
def sendOk : Except String BatchState → Bool
  | .ok _ => true
  | .error _ => false

/-- The contract the asynchronous client guarantees for one batch: the store
invokes each issued callback at most once (so per side the landed callback
keys are distinct), and only for issued keys. -/
def validEvents (keys : List String) (events : List CBEvent) : Prop :=
  ((events.filter (fun e => e.isSource)).map (fun e => e.key)).Nodup ∧
    ((events.filter (fun e => !e.isSource)).map (fun e => e.key)).Nodup ∧
    ∀ e ∈ events, e.key ∈ keys

instance (keys : List String) (events : List CBEvent) :
    Decidable (validEvents keys events) := by
  unfold validEvents
  infer_instance

/-! #### Batch state lemmas -/

theorem updateEntry_cons (k1 : String) (v1 : GetResult) (rest : List (String × GetResult))
    (k : String) (r : GetResult) :
    updateEntry ((k1, v1) :: rest) k r =
      (if k1 = k then (k1, r) else (k1, v1)) :: updateEntry rest k r := by
  by_cases h : k1 = k <;> simp [updateEntry, h]

theorem akeys_updateEntry (m : List (String × GetResult)) (k : String) (r : GetResult) :
    akeys (updateEntry m k r) = akeys m := by
  induction m with
  | nil => rfl
  | cons e rest ih =>
    obtain ⟨k1, v1⟩ := e
    rw [updateEntry_cons]
    by_cases h : k1 = k
    · rw [if_pos h, akeys_cons, akeys_cons, ih]
    · rw [if_neg h, akeys_cons, akeys_cons, ih]

theorem alookup_updateEntry_self (m : List (String × GetResult)) (k : String) (r : GetResult)
    (h : k ∈ akeys m) : alookup (updateEntry m k r) k = some r := by
  induction m with
  | nil => simp [akeys] at h
  | cons e rest ih =>
    obtain ⟨k1, v1⟩ := e
    rw [updateEntry_cons]
    by_cases h1 : k1 = k
    · rw [if_pos h1, alookup_cons, if_pos h1]
    · rw [if_neg h1, alookup_cons, if_neg h1]
      have hrest : k ∈ akeys rest := by
        rw [akeys_cons] at h
        rcases List.mem_cons.mp h with h' | h'
        · exact absurd h'.symm h1
        · exact h'
      exact ih hrest

theorem alookup_updateEntry_ne (m : List (String × GetResult)) (k : String) (r : GetResult)
    (k' : String) (h : k' ≠ k) : alookup (updateEntry m k r) k' = alookup m k' := by
  induction m with
  | nil => rfl
  | cons e rest ih =>
    obtain ⟨k1, v1⟩ := e
    rw [updateEntry_cons, alookup_cons]
    by_cases h1 : k1 = k
    · rw [if_pos h1, alookup_cons]
      have hne : ¬ k1 = k' := by
        rw [h1]
        exact fun hh => h hh.symm
      rw [if_neg hne, if_neg hne, ih]
    · rw [if_neg h1, alookup_cons]
      by_cases h2 : k1 = k'
      · rw [if_pos h2, if_pos h2]
      · rw [if_neg h2, if_neg h2, ih]

theorem applyCallback_keys (b : BatchState) (e : CBEvent) :
    (applyCallback b e).keys = b.keys := by
  unfold applyCallback
  by_cases h : e.isSource <;> simp [h]

theorem applyCallback_sourceCount (b : BatchState) (e : CBEvent) :
    (applyCallback b e).sourceResultCount =
      b.sourceResultCount + if e.isSource then 1 else 0 := by
  unfold applyCallback
  by_cases h : e.isSource <;> simp [h]

theorem applyCallback_targetCount (b : BatchState) (e : CBEvent) :
    (applyCallback b e).targetResultCount =
      b.targetResultCount + if e.isSource then 0 else 1 := by
  unfold applyCallback
  by_cases h : e.isSource <;> simp [h]

theorem applyCallback_sourceResults (b : BatchState) (e : CBEvent) :
    (applyCallback b e).sourceResults =
      if e.isSource then updateEntry b.sourceResults e.key ⟨e.key, e.result, e.error⟩
      else b.sourceResults := by
  unfold applyCallback
  by_cases h : e.isSource <;> simp [h]

theorem applyCallback_targetResults (b : BatchState) (e : CBEvent) :
    (applyCallback b e).targetResults =
      if e.isSource then b.targetResults
      else updateEntry b.targetResults e.key ⟨e.key, e.result, e.error⟩ := by
  unfold applyCallback
  by_cases h : e.isSource <;> simp [h]

theorem foldl_applyCallback_sourceCount (events : List CBEvent) :
    ∀ b : BatchState, (events.foldl applyCallback b).sourceResultCount =
      b.sourceResultCount + (events.filter (fun e => e.isSource)).length := by
  induction events with
  | nil => intro b; simp
  | cons e es ih =>
    intro b
    rw [List.foldl_cons, ih, applyCallback_sourceCount]
    by_cases h : e.isSource <;> simp [List.filter_cons, h] <;> omega

theorem foldl_applyCallback_targetCount (events : List CBEvent) :
    ∀ b : BatchState, (events.foldl applyCallback b).targetResultCount =
      b.targetResultCount + (events.filter (fun e => !e.isSource)).length := by
  induction events with
  | nil => intro b; simp
  | cons e es ih =>
    intro b
    rw [List.foldl_cons, ih, applyCallback_targetCount]
    by_cases h : e.isSource <;> simp [List.filter_cons, h] <;> omega

theorem foldl_applyCallback_akeys_src (events : List CBEvent) :
    ∀ b : BatchState,
      akeys (events.foldl applyCallback b).sourceResults = akeys b.sourceResults := by
  induction events with
  | nil => intro b; rfl
  | cons e es ih =>
    intro b
    rw [List.foldl_cons, ih, applyCallback_sourceResults]
    by_cases h : e.isSource <;> simp [h, akeys_updateEntry]

theorem foldl_applyCallback_akeys_tgt (events : List CBEvent) :
    ∀ b : BatchState,
      akeys (events.foldl applyCallback b).targetResults = akeys b.targetResults := by
  induction events with
  | nil => intro b; rfl
  | cons e es ih =>
    intro b
    rw [List.foldl_cons, ih, applyCallback_targetResults]
    by_cases h : e.isSource <;> simp [h, akeys_updateEntry]

theorem foldl_applyCallback_lookup_src_frozen (events : List CBEvent) :
    ∀ b : BatchState, ∀ k : String,
      (∀ e ∈ events, e.isSource = true → e.key ≠ k) →
      alookup (events.foldl applyCallback b).sourceResults k =
        alookup b.sourceResults k := by
  induction events with
  | nil => intro b k _; rfl
  | cons e es ih =>
    intro b k h
    rw [List.foldl_cons, ih _ k (fun e' he' => h e' (List.mem_cons_of_mem e he'))]
    rw [applyCallback_sourceResults]
    by_cases hs : e.isSource
    · rw [if_pos hs]
      exact alookup_updateEntry_ne _ _ _ _ (Ne.symm (h e (List.mem_cons_self e es) hs))
    · rw [if_neg hs]

theorem foldl_applyCallback_lookup_tgt_frozen (events : List CBEvent) :
    ∀ b : BatchState, ∀ k : String,
      (∀ e ∈ events, e.isSource = false → e.key ≠ k) →
      alookup (events.foldl applyCallback b).targetResults k =
        alookup b.targetResults k := by
  induction events with
  | nil => intro b k _; rfl
  | cons e es ih =>
    intro b k h
    rw [List.foldl_cons, ih _ k (fun e' he' => h e' (List.mem_cons_of_mem e he'))]
    rw [applyCallback_targetResults]
    by_cases hs : e.isSource
    · rw [if_pos hs]
    · rw [if_neg hs]
      exact alookup_updateEntry_ne _ _ _ _
        (Ne.symm (h e (List.mem_cons_self e es) (by simpa using hs)))

theorem foldl_applyCallback_lookup_src_event (events : List CBEvent) :
    ∀ b : BatchState, ∀ ev : CBEvent, ∀ k : String,
      k ∈ akeys b.sourceResults →
      ((events.filter (fun e => e.isSource)).map (fun e => e.key)).Nodup →
      ev ∈ events → ev.isSource = true → ev.key = k →
      alookup (events.foldl applyCallback b).sourceResults k =
        some ⟨k, ev.result, ev.error⟩ := by
  induction events with
  | nil =>
    intro b ev k _ _ hmem
    simp at hmem
  | cons e es ih =>
    intro b ev k hk hnd hmem hsrc hkey
    rcases List.mem_cons.mp hmem with heq | hmem'
    · subst heq
      rw [List.foldl_cons]
      have hfrozen : ∀ e' ∈ es, e'.isSource = true → e'.key ≠ k := by
        intro e' he' hs' hkey'
        have : e' ∈ es.filter (fun e => e.isSource) := List.mem_filter.mpr ⟨he', by simp [hs']⟩
        have hkmem : k ∈ (es.filter (fun e => e.isSource)).map (fun e => e.key) :=
          List.mem_map.mpr ⟨e', this, hkey'⟩
        rw [List.filter_cons_of_pos (by simp [hsrc]), List.map_cons, hkey] at hnd
        exact (List.nodup_cons.mp hnd).1 hkmem
      rw [foldl_applyCallback_lookup_src_frozen es _ k hfrozen]
      rw [applyCallback_sourceResults, if_pos hsrc, hkey]
      exact alookup_updateEntry_self _ _ _ hk
    · rw [List.foldl_cons]
      have hnd' : ((es.filter (fun e => e.isSource)).map (fun e => e.key)).Nodup := by
        by_cases hs : e.isSource
        · rw [List.filter_cons_of_pos (by simp [hs]), List.map_cons] at hnd
          exact (List.nodup_cons.mp hnd).2
        · rwa [List.filter_cons_of_neg (by simp [hs])] at hnd
      have hk' : k ∈ akeys (applyCallback b e).sourceResults := by
        rw [applyCallback_sourceResults]
        by_cases hs : e.isSource <;> simp [hs, akeys_updateEntry, hk]
      exact ih _ ev k hk' hnd' hmem' hsrc hkey

theorem foldl_applyCallback_lookup_tgt_event (events : List CBEvent) :
    ∀ b : BatchState, ∀ ev : CBEvent, ∀ k : String,
      k ∈ akeys b.targetResults →
      ((events.filter (fun e => !e.isSource)).map (fun e => e.key)).Nodup →
      ev ∈ events → ev.isSource = false → ev.key = k →
      alookup (events.foldl applyCallback b).targetResults k =
        some ⟨k, ev.result, ev.error⟩ := by
  induction events with
  | nil =>
    intro b ev k _ _ hmem
    simp at hmem
  | cons e es ih =>
    intro b ev k hk hnd hmem hsrc hkey
    rcases List.mem_cons.mp hmem with heq | hmem'
    · subst heq
      rw [List.foldl_cons]
      have hfrozen : ∀ e' ∈ es, e'.isSource = false → e'.key ≠ k := by
        intro e' he' hs' hkey'
        have : e' ∈ es.filter (fun e => !e.isSource) :=
          List.mem_filter.mpr ⟨he', by simp [hs']⟩
        have hkmem : k ∈ (es.filter (fun e => !e.isSource)).map (fun e => e.key) :=
          List.mem_map.mpr ⟨e', this, hkey'⟩
        rw [List.filter_cons_of_pos (by simp [hsrc]), List.map_cons, hkey] at hnd
        exact (List.nodup_cons.mp hnd).1 hkmem
      rw [foldl_applyCallback_lookup_tgt_frozen es _ k hfrozen]
      rw [applyCallback_targetResults, if_neg (by simp [hsrc]), hkey]
      exact alookup_updateEntry_self _ _ _ hk
    · rw [List.foldl_cons]
      have hnd' : ((es.filter (fun e => !e.isSource)).map (fun e => e.key)).Nodup := by
        by_cases hs : e.isSource
        · rwa [List.filter_cons_of_neg (by simp [hs])] at hnd
        · rw [List.filter_cons_of_pos (by simp [hs]), List.map_cons] at hnd
          exact (List.nodup_cons.mp hnd).2
      have hk' : k ∈ akeys (applyCallback b e).targetResults := by
        rw [applyCallback_targetResults]
        by_cases hs : e.isSource <;> simp [hs, akeys_updateEntry, hk]
      exact ih _ ev k hk' hnd' hmem' hsrc hkey

theorem akeys_map_placeholder (keys : List String) :
    akeys (keys.map (fun k => (k, emptyGetResult))) = keys := by
  induction keys with
  | nil => rfl
  | cons k ks ih => rw [List.map_cons, akeys_cons, ih]

theorem akeys_NewBatch_src (keys : List String) :
    akeys (NewBatch keys).sourceResults = keys :=
  akeys_map_placeholder keys

theorem akeys_NewBatch_tgt (keys : List String) :
    akeys (NewBatch keys).targetResults = keys :=
  akeys_map_placeholder keys

/-- Pigeonhole step for the completion gate: if the keys of the landed
per-side callbacks are distinct, are all issued keys, and are as many as the
issued keys (which are distinct), then every issued key got its callback. -/
theorem all_keys_covered (keys evkeys : List String) (hnd : keys.Nodup)
    (hevnd : evkeys.Nodup) (hsub : ∀ x ∈ evkeys, x ∈ keys)
    (hlen : evkeys.length = keys.length) : ∀ k ∈ keys, k ∈ evkeys := by
  have hsp : List.Subperm evkeys keys := List.subperm_of_subset hevnd hsub
  have hperm : evkeys.Perm keys := hsp.perm_of_length_le (by omega)
  intro k hk
  exact hperm.mem_iff.mpr hk

theorem runBatch_populated_src (keys : List String) (events : List CBEvent) (k : String)
    (hnd : keys.Nodup) (hv : validEvents keys events) (hk : k ∈ keys)
    (hcount : (runBatch keys events).sourceResultCount = keys.length) :
    ∃ e ∈ events, e.isSource = true ∧ e.key = k ∧
      alookup (runBatch keys events).sourceResults k = some ⟨k, e.result, e.error⟩ := by
  obtain ⟨hnds, hndt, hsub⟩ := hv
  have hlen : (events.filter (fun e => e.isSource)).length = keys.length := by
    have := foldl_applyCallback_sourceCount events (NewBatch keys)
    rw [runBatch] at hcount
    rw [hcount] at this
    simpa [NewBatch] using this.symm
  have hcov := all_keys_covered keys ((events.filter (fun e => e.isSource)).map (fun e => e.key))
    hnd hnds
    (by
      intro x hx
      obtain ⟨e, he, hkey⟩ := List.mem_map.mp hx
      exact hkey ▸ hsub e (List.mem_of_mem_filter he))
    (by simpa using hlen)
  obtain ⟨e, hef, hkey⟩ := List.mem_map.mp (hcov k hk)
  have hes : e ∈ events := List.mem_of_mem_filter hef
  have hsrc : e.isSource = true := by simpa using (List.mem_filter.mp hef).2
  refine ⟨e, hes, hsrc, hkey, ?_⟩
  exact foldl_applyCallback_lookup_src_event events (NewBatch keys) e k
    (by rw [akeys_NewBatch_src]; exact hk) hnds hes hsrc hkey

theorem runBatch_populated_tgt (keys : List String) (events : List CBEvent) (k : String)
    (hnd : keys.Nodup) (hv : validEvents keys events) (hk : k ∈ keys)
    (hcount : (runBatch keys events).targetResultCount = keys.length) :
    ∃ e ∈ events, e.isSource = false ∧ e.key = k ∧
      alookup (runBatch keys events).targetResults k = some ⟨k, e.result, e.error⟩ := by
  obtain ⟨hnds, hndt, hsub⟩ := hv
  have hlen : (events.filter (fun e => !e.isSource)).length = keys.length := by
    have := foldl_applyCallback_targetCount events (NewBatch keys)
    rw [runBatch] at hcount
    rw [hcount] at this
    simpa [NewBatch] using this.symm
  have hcov := all_keys_covered keys ((events.filter (fun e => !e.isSource)).map (fun e => e.key))
    hnd hndt
    (by
      intro x hx
      obtain ⟨e, he, hkey⟩ := List.mem_map.mp hx
      exact hkey ▸ hsub e (List.mem_of_mem_filter he))
    (by simpa using hlen)
  obtain ⟨e, hef, hkey⟩ := List.mem_map.mp (hcov k hk)
  have hes : e ∈ events := List.mem_of_mem_filter hef
  have hsrc : e.isSource = false := by
    have := (List.mem_filter.mp hef).2
    simpa using this
  refine ⟨e, hes, hsrc, hkey, ?_⟩
  exact foldl_applyCallback_lookup_tgt_event events (NewBatch keys) e k
    (by rw [akeys_NewBatch_tgt]; exact hk) hndt hes hsrc hkey

/-! ### Fine-grained batch model (one callback = two atomic actions)

`getCallbackFunc` (mutationDiffer.go:490-510) performs two separate atomic
actions: it first increments its side's completion counter
(`atomic.AddUint32`, :495/:498) and only then writes key/result/error into
the placeholder entry under the entry's lock (:500-505).  Between the two,
other callbacks run; in particular the callback that raises a side's
counter to `len(keys)` releases the completion gate after its own write,
while some earlier-counted callback may not have written yet — so `send`
can return nil and `mergeResults` can copy a still-empty placeholder (the
staleness the comment at :393 acknowledges).  The coarse `applyCallback`
model above fuses the two actions and is therefore used only for what it is
faithful to: the per-side counts and send's success/failure (claims C4 and
C6).  The model below separates them. -/

/-- One atomic action of one get callback: the counter increment, or the
entry write. -/
inductive CBStep where
  | inc (key : String) (isSource : Bool)
  | write (key : String) (isSource : Bool) (result : Option GocbGetResult)
      (error : Option String)
deriving Repr, DecidableEq

/-- Apply one callback action (mutationDiffer.go:495/:498 for `inc`,
:500-505 for `write`). -/
def applyCBStep (b : BatchState) (s : CBStep) : BatchState :=
  match s with
  | .inc _ isSource =>
    if isSource then { b with sourceResultCount := b.sourceResultCount + 1 }
    else { b with targetResultCount := b.targetResultCount + 1 }
  | .write key isSource result error =>
    if isSource then
      { b with sourceResults := updateEntry b.sourceResults key ⟨key, result, error⟩ }
    else
      { b with targetResults := updateEntry b.targetResults key ⟨key, result, error⟩ }

/-- The batch state after the callback actions in `steps` (those executing
before `send` returns) have run, in order, on a fresh batch. -/
def runBatchSteps (keys : List String) (steps : List CBStep) : BatchState :=
  steps.foldl applyCBStep (NewBatch keys)

/-- The keys of the counter increments of one side, in order. -/
def incKeys (steps : List CBStep) (side : Bool) : List String :=
  steps.filterMap (fun s =>
    match s with
    | .inc k s' => if s' = side then some k else none
    | .write _ _ _ _ => none)

/-- The entry writes among the actions, as coarse events. -/
def writesOf (steps : List CBStep) : List CBEvent :=
  steps.filterMap (fun s =>
    match s with
    | .inc _ _ => none
    | .write k side r e => some ⟨k, side, r, e⟩)

/-- The source-side written keys. -/
def srcWriteKeys (steps : List CBStep) : List String :=
  ((writesOf steps).filter (fun e => e.isSource)).map (fun e => e.key)

/-- The target-side written keys. -/
def tgtWriteKeys (steps : List CBStep) : List String :=
  ((writesOf steps).filter (fun e => !e.isSource)).map (fun e => e.key)

/-- `batch.send` over the fine-grained actions: it returns nil exactly when
both per-side counters — which count increments, not completed writes —
reach `len(keys)` before the timer fires. -/
def batchSendSteps (keys : List String) (steps : List CBStep) : Except String BatchState :=
  if (incKeys steps true).length = keys.length ∧
      (incKeys steps false).length = keys.length then
    .ok (runBatchSteps keys steps)
  else .error "mutation differ batch timed out"

/-- Whether, for each side, the gate-releasing increment (the last one, when
the side completed) came from a callback whose write is among the executed
actions: in Go the callback that raises the counter to `len(keys)` performs
its own entry write before calling `Done` (mutationDiffer.go:500-509). -/
def gateRealized (keys : List String) (steps : List CBStep) : Bool :=
  (if (incKeys steps true).length = keys.length then
    match (incKeys steps true).getLast? with
    | some kl => decide (kl ∈ srcWriteKeys steps)
    | none => true
  else true) &&
  (if (incKeys steps false).length = keys.length then
    match (incKeys steps false).getLast? with
    | some kl => decide (kl ∈ tgtWriteKeys steps)
    | none => true
  else true)

/-- What the Go control flow guarantees about any prefix of callback actions:
each issued callback increments at most once per key per side and only for
issued keys; writes are at most one per key per side, only for issued keys,
and only by callbacks that already incremented; and each side's
gate-releasing callback has written (it calls `Done` after its write). -/
def validSteps (keys : List String) (steps : List CBStep) : Prop :=
  (incKeys steps true).Nodup ∧ (incKeys steps false).Nodup ∧
    (∀ k ∈ incKeys steps true, k ∈ keys) ∧ (∀ k ∈ incKeys steps false, k ∈ keys) ∧
    validEvents keys (writesOf steps) ∧
    (∀ k ∈ srcWriteKeys steps, k ∈ incKeys steps true) ∧
    (∀ k ∈ tgtWriteKeys steps, k ∈ incKeys steps false) ∧
    gateRealized keys steps = true

instance (keys : List String) (steps : List CBStep) : Decidable (validSteps keys steps) := by
  unfold validSteps
  infer_instance

/-- No callback was preempted between its counter increment and its entry
write: every counted callback's write is among the executed actions. -/
def writeComplete (steps : List CBStep) : Prop :=
  (∀ k ∈ incKeys steps true, k ∈ srcWriteKeys steps) ∧
    ∀ k ∈ incKeys steps false, k ∈ tgtWriteKeys steps

instance (steps : List CBStep) : Decidable (writeComplete steps) := by
  unfold writeComplete
  infer_instance

theorem foldl_steps_maps (steps : List CBStep) :
    ∀ b b' : BatchState, b.sourceResults = b'.sourceResults →
      b.targetResults = b'.targetResults →
      (steps.foldl applyCBStep b).sourceResults =
          ((writesOf steps).foldl applyCallback b').sourceResults ∧
        (steps.foldl applyCBStep b).targetResults =
          ((writesOf steps).foldl applyCallback b').targetResults := by
  induction steps with
  | nil => intro b b' h1 h2; exact ⟨h1, h2⟩
  | cons s rest ih =>
    intro b b' h1 h2
    cases s with
    | inc k side =>
      have hw : writesOf (CBStep.inc k side :: rest) = writesOf rest := by
        simp [writesOf, List.filterMap_cons]
      rw [hw, List.foldl_cons]
      apply ih
      · show (applyCBStep b (.inc k side)).sourceResults = b'.sourceResults
        unfold applyCBStep
        cases side <;> simpa
      · show (applyCBStep b (.inc k side)).targetResults = b'.targetResults
        unfold applyCBStep
        cases side <;> simpa
    | write k side r e =>
      have hw : writesOf (CBStep.write k side r e :: rest) =
          ⟨k, side, r, e⟩ :: writesOf rest := by
        simp [writesOf, List.filterMap_cons]
      rw [hw, List.foldl_cons, List.foldl_cons]
      apply ih
      · show (applyCBStep b (.write k side r e)).sourceResults =
          (applyCallback b' ⟨k, side, r, e⟩).sourceResults
        rw [applyCallback_sourceResults]
        unfold applyCBStep
        cases side <;> simp <;> rw [h1]
      · show (applyCBStep b (.write k side r e)).targetResults =
          (applyCallback b' ⟨k, side, r, e⟩).targetResults
        rw [applyCallback_targetResults]
        unfold applyCBStep
        cases side <;> simp <;> rw [h2]

theorem runBatchSteps_maps (keys : List String) (steps : List CBStep) :
    (runBatchSteps keys steps).sourceResults =
        (runBatch keys (writesOf steps)).sourceResults ∧
      (runBatchSteps keys steps).targetResults =
        (runBatch keys (writesOf steps)).targetResults :=
  foldl_steps_maps steps (NewBatch keys) (NewBatch keys) rfl rfl

theorem alookup_map_placeholder (keys : List String) (k : String) (hk : k ∈ keys) :
    alookup (keys.map (fun k => (k, emptyGetResult))) k = some emptyGetResult := by
  induction keys with
  | nil => simp at hk
  | cons k1 rest ih =>
    rw [List.map_cons, alookup_cons]
    by_cases h1 : k1 = k
    · rw [if_pos h1]
    · rw [if_neg h1]
      rcases List.mem_cons.mp hk with h | h
      · exact absurd h.symm h1
      · exact ih h

/-- The entry a successful batch hands to the merge for one of its keys:
either the still-unwritten placeholder, or the key with its callback's
document-or-error. -/
theorem runBatchSteps_entry_src (keys : List String) (steps : List CBStep) (k : String)
    (hk : k ∈ keys)
    (hnd : (((writesOf steps).filter (fun e => e.isSource)).map (fun e => e.key)).Nodup) :
    alookup (runBatchSteps keys steps).sourceResults k = some emptyGetResult ∨
      ∃ r e, alookup (runBatchSteps keys steps).sourceResults k = some ⟨k, r, e⟩ := by
  rw [(runBatchSteps_maps keys steps).1]
  by_cases hev : ∃ ev ∈ writesOf steps, ev.isSource = true ∧ ev.key = k
  · obtain ⟨ev, hmem, hsrc, hkey⟩ := hev
    right
    exact ⟨ev.result, ev.error,
      foldl_applyCallback_lookup_src_event (writesOf steps) (NewBatch keys) ev k
        (by rw [akeys_NewBatch_src]; exact hk) hnd hmem hsrc hkey⟩
  · left
    rw [runBatch]
    rw [foldl_applyCallback_lookup_src_frozen (writesOf steps) (NewBatch keys) k
      (fun ev hm hs hkey => hev ⟨ev, hm, hs, hkey⟩)]
    exact alookup_map_placeholder keys k hk

theorem runBatchSteps_entry_tgt (keys : List String) (steps : List CBStep) (k : String)
    (hk : k ∈ keys)
    (hnd : (((writesOf steps).filter (fun e => !e.isSource)).map (fun e => e.key)).Nodup) :
    alookup (runBatchSteps keys steps).targetResults k = some emptyGetResult ∨
      ∃ r e, alookup (runBatchSteps keys steps).targetResults k = some ⟨k, r, e⟩ := by
  rw [(runBatchSteps_maps keys steps).2]
  by_cases hev : ∃ ev ∈ writesOf steps, ev.isSource = false ∧ ev.key = k
  · obtain ⟨ev, hmem, hsrc, hkey⟩ := hev
    right
    exact ⟨ev.result, ev.error,
      foldl_applyCallback_lookup_tgt_event (writesOf steps) (NewBatch keys) ev k
        (by rw [akeys_NewBatch_tgt]; exact hk) hnd hmem hsrc hkey⟩
  · left
    rw [runBatch]
    rw [foldl_applyCallback_lookup_tgt_frozen (writesOf steps) (NewBatch keys) k
      (fun ev hm hs hkey => hev ⟨ev, hm, hs, hkey⟩)]
    exact alookup_map_placeholder keys k hk

/-- Every key of a completed side was counted: its callback was invoked. -/
theorem incKeys_cover (keys : List String) (steps : List CBStep) (side : Bool)
    (hnd : keys.Nodup) (hincnd : (incKeys steps side).Nodup)
    (hsub : ∀ k ∈ incKeys steps side, k ∈ keys)
    (hlen : (incKeys steps side).length = keys.length) :
    ∀ k ∈ keys, k ∈ incKeys steps side :=
  all_keys_covered keys (incKeys steps side) hnd hincnd hsub hlen

/-- A written source entry holds the key and its callback's payload. -/
theorem runBatchSteps_written_src (keys : List String) (steps : List CBStep) (k : String)
    (hk : k ∈ keys)
    (hnd : (((writesOf steps).filter (fun e => e.isSource)).map (fun e => e.key)).Nodup)
    (hw : k ∈ srcWriteKeys steps) :
    ∃ r e, alookup (runBatchSteps keys steps).sourceResults k = some ⟨k, r, e⟩ := by
  rw [(runBatchSteps_maps keys steps).1]
  obtain ⟨ev, hmemf, hkey⟩ := List.mem_map.mp hw
  have hmem : ev ∈ writesOf steps := List.mem_of_mem_filter hmemf
  have hsrc : ev.isSource = true := by simpa using (List.mem_filter.mp hmemf).2
  exact ⟨ev.result, ev.error,
    foldl_applyCallback_lookup_src_event (writesOf steps) (NewBatch keys) ev k
      (by rw [akeys_NewBatch_src]; exact hk) hnd hmem hsrc hkey⟩

/-- A written target entry holds the key and its callback's payload. -/
theorem runBatchSteps_written_tgt (keys : List String) (steps : List CBStep) (k : String)
    (hk : k ∈ keys)
    (hnd : (((writesOf steps).filter (fun e => !e.isSource)).map (fun e => e.key)).Nodup)
    (hw : k ∈ tgtWriteKeys steps) :
    ∃ r e, alookup (runBatchSteps keys steps).targetResults k = some ⟨k, r, e⟩ := by
  rw [(runBatchSteps_maps keys steps).2]
  obtain ⟨ev, hmemf, hkey⟩ := List.mem_map.mp hw
  have hmem : ev ∈ writesOf steps := List.mem_of_mem_filter hmemf
  have hsrc : ev.isSource = false := by simpa using (List.mem_filter.mp hmemf).2
  exact ⟨ev.result, ev.error,
    foldl_applyCallback_lookup_tgt_event (writesOf steps) (NewBatch keys) ev k
      (by rw [akeys_NewBatch_tgt]; exact hk) hnd hmem hsrc hkey⟩

/-- Claim C5, counterexample: an execution the program allows in which
`batch.send` returns nil while a key's source entry is still the empty
placeholder.  Key "a"'s source callback increments the counter but is
preempted before writing its entry; key "b"'s source callback then
increments the counter to the batch size and releases the gate (after its
own write, as the code does); the target side completes fully.  `send`
returns without error, yet the entry `mergeResults` copies for "a" is the
unwritten placeholder — refuting "on a non-error return every key's
source-side and target-side result entries are populated". -/
theorem c5_counterexample :
    sendOk (batchSendSteps ["a", "b"]
        [.inc "a" true,
          .inc "b" true, .write "b" true (some ⟨some [1], 0, 0, 1⟩) none,
          .inc "a" false, .write "a" false (some ⟨some [1], 0, 0, 1⟩) none,
          .inc "b" false, .write "b" false (some ⟨some [1], 0, 0, 1⟩) none]) = true ∧
      validSteps ["a", "b"]
        [.inc "a" true,
          .inc "b" true, .write "b" true (some ⟨some [1], 0, 0, 1⟩) none,
          .inc "a" false, .write "a" false (some ⟨some [1], 0, 0, 1⟩) none,
          .inc "b" false, .write "b" false (some ⟨some [1], 0, 0, 1⟩) none] ∧
      alookup (runBatchSteps ["a", "b"]
        [.inc "a" true,
          .inc "b" true, .write "b" true (some ⟨some [1], 0, 0, 1⟩) none,
          .inc "a" false, .write "a" false (some ⟨some [1], 0, 0, 1⟩) none,
          .inc "b" false, .write "b" false (some ⟨some [1], 0, 0, 1⟩) none]).sourceResults
        "a" = some emptyGetResult ∧
      emptyGetResult.Key = "" := by
  refine ⟨by decide, by decide, by decide, rfl⟩

/-- Claim C5 (amended): `batch.send` returns without error iff, before the
configured timeout, both per-side completion counters reach the batch's key
count, and on timeout it returns exactly the timeout error.  A non-error
return means every key's callback was invoked on both sides (every fetch
completed), but NOT that every entry is populated: the callback increments
the counter before writing the entry, so a counted entry can still be the
empty placeholder when the gate releases.  Entries are guaranteed populated
(key plus document-or-error) only when additionally no callback was
preempted between its increment and its write. -/
theorem c5_send_gate_contract (keys : List String) (steps : List CBStep)
    (hnd : keys.Nodup) (hv : validSteps keys steps) :
    (sendOk (batchSendSteps keys steps) = true ↔
      (incKeys steps true).length = keys.length ∧
        (incKeys steps false).length = keys.length) ∧
      (sendOk (batchSendSteps keys steps) = true →
        ∀ k ∈ keys, k ∈ incKeys steps true ∧ k ∈ incKeys steps false) ∧
      (sendOk (batchSendSteps keys steps) = true → writeComplete steps →
        ∀ k ∈ keys,
          (∃ r e, alookup (runBatchSteps keys steps).sourceResults k = some ⟨k, r, e⟩) ∧
          ∃ r e, alookup (runBatchSteps keys steps).targetResults k = some ⟨k, r, e⟩) ∧
      (sendOk (batchSendSteps keys steps) = false →
        batchSendSteps keys steps = .error "mutation differ batch timed out") := by
  obtain ⟨hind1, hind2, hisub1, hisub2, hvw, hwi1, hwi2, hgate⟩ := hv
  obtain ⟨hwnd1, hwnd2, hwsub⟩ := hvw
  unfold batchSendSteps
  by_cases hc : (incKeys steps true).length = keys.length ∧
      (incKeys steps false).length = keys.length
  · rw [if_pos hc]
    refine ⟨by simp [sendOk, hc], ?_, ?_, by simp [sendOk]⟩
    · intro _ k hk
      exact ⟨incKeys_cover keys steps true hnd hind1 hisub1 hc.1 k hk,
        incKeys_cover keys steps false hnd hind2 hisub2 hc.2 k hk⟩
    · intro _ hwc k hk
      have hks : k ∈ srcWriteKeys steps :=
        hwc.1 k (incKeys_cover keys steps true hnd hind1 hisub1 hc.1 k hk)
      have hkt : k ∈ tgtWriteKeys steps :=
        hwc.2 k (incKeys_cover keys steps false hnd hind2 hisub2 hc.2 k hk)
      exact ⟨runBatchSteps_written_src keys steps k hk hwnd1 hks,
        runBatchSteps_written_tgt keys steps k hk hwnd2 hkt⟩
  · rw [if_neg hc]
    refine ⟨by simp [sendOk, hc], ?_, ?_, by simp [sendOk]⟩
    · intro h
      simp [sendOk] at h
    · intro h
      simp [sendOk] at h

/-- Claim C5 witness: one key whose two callbacks fully land; send succeeds,
both callbacks were counted, and (the execution being write-complete) both
entries are populated. -/
theorem c5_send_gate_contract_witness :
    sendOk (batchSendSteps ["k1"]
        [.inc "k1" true, .write "k1" true (some ⟨some [1], 0, 0, 7⟩) none,
          .inc "k1" false, .write "k1" false none (some KeyNotFoundErrMsg)]) = true ∧
      ∃ r e, alookup (runBatchSteps ["k1"]
        [.inc "k1" true, .write "k1" true (some ⟨some [1], 0, 0, 7⟩) none,
          .inc "k1" false, .write "k1" false none (some KeyNotFoundErrMsg)]).sourceResults
          "k1" = some ⟨"k1", r, e⟩ := by
  have h := c5_send_gate_contract ["k1"]
    [.inc "k1" true, .write "k1" true (some ⟨some [1], 0, 0, 7⟩) none,
      .inc "k1" false, .write "k1" false none (some KeyNotFoundErrMsg)]
    (by decide) (by decide)
  have hok : sendOk (batchSendSteps ["k1"]
      [.inc "k1" true, .write "k1" true (some ⟨some [1], 0, 0, 7⟩) none,
        .inc "k1" false, .write "k1" false none (some KeyNotFoundErrMsg)]) = true := by
    rw [h.1]
    decide
  exact ⟨hok, (h.2.2.1 hok (by decide) "k1" (by decide)).1⟩

/-- Claim C9: for a worker key slice `ws` and a batch size `B > 0`, the loop
of `DifferWorker.getResults` splits `ws` into consecutive batches covering
it exactly — the concatenation of the batch slices is `ws` itself, with no
overlap and no omission — where every batch except possibly the last has
size exactly `B`, and the last has size between 1 and `B`. -/
theorem c9_batch_partition (B : Nat) (ws : List String) (hB : 0 < B) :
    ((getResultsBatches ws.length B).map (fun r => (ws.drop r.1).take (r.2 - r.1))).flatten = ws ∧
      (∀ r ∈ (getResultsBatches ws.length B).dropLast, r.2 - r.1 = B) ∧
      (∀ r, (getResultsBatches ws.length B).getLast? = some r →
        1 ≤ r.2 - r.1 ∧ r.2 - r.1 ≤ B) := by
  refine ⟨?_, ?_⟩
  · have := batchRanges_join_slices ws ws.length ws.length B 0 rfl hB (by omega)
    simpa [getResultsBatches] using this
  · exact batchRanges_sizes ws.length ws.length B 0 hB (by omega)

/-- Claim C9 witness: seven keys with batch size three split as 3+3+1. -/
theorem c9_batch_partition_witness :
    (0 : Nat) < 3 ∧
      ((getResultsBatches (["a", "b", "c", "d", "e", "f", "g"] : List String).length 3).map
          (fun r =>
            ((["a", "b", "c", "d", "e", "f", "g"] : List String).drop r.1).take (r.2 - r.1))).flatten =
        ["a", "b", "c", "d", "e", "f", "g"] :=
  ⟨by decide, (c9_batch_partition 3 ["a", "b", "c", "d", "e", "f", "g"] (by decide)).1⟩

/-! ### Retry driver and worker loop -/

/-- `sendBatchFunc` under the retry driver (mutationDiffer.go:370-382).
Modelled from the spec: `utils.ExponentialBackoffExecutor` is not under
src/; per §4.3 it re-runs the operation until one attempt succeeds or the
attempt budget is exhausted, surfacing the final error, with delays
(retryInterval · backoffFactor^i, capped at maxBackoff) that only pace the
retries and do not affect the result.  `attempts` carries one entry per
attempt (the callbacks landing before that attempt's timeout); each attempt
evaluates `batchSend` on a brand-new batch (`NewBatch` inside
`sendBatchFunc`), never resuming a previous attempt's partial state, and the
first success wins. -/
def firstSuccessfulBatch (keys : List String) : List (List CBEvent) → Option BatchState
  | [] => none
  | evs :: rest =>
    match batchSend keys evs with
    | .ok b => some b
    | .error _ => firstSuccessfulBatch keys rest

/-- The shared aggregate state of `MutationDiffer` (mutationDiffer.go:49-56):
the three global diff mappings, the error-key list, and the two `uint32`
counters, embedded as `Nat` reduced modulo `2^32` at every increment. -/
structure DifferState where
  missingFromSource : List (String × Option GocbGetResult)
  missingFromTarget : List (String × Option GocbGetResult)
  diff : List (String × (Option GocbGetResult × Option GocbGetResult))
  keysWithError : List String
  numKeysProcessed : Nat
  numKeysWithErrors : Nat
deriving Repr, DecidableEq

/-- The state built by `NewMutationDiffer` (mutationDiffer.go:96-101). -/
def initialDifferState : DifferState := ⟨[], [], [], [], 0, 0⟩

/-- Reduction of a `uint32` addition result. -/
def uint32Mod (n : Nat) : Nat := n % 4294967296

/-- `MutationDiffer.addKeysWithError` (mutationDiffer.go:314-319): append the
keys under the state lock and bump `numKeysWithErrors` atomically. -/
def addKeysWithError (d : DifferState) (keys : List String) : DifferState :=
  { d with
    keysWithError := d.keysWithError ++ keys
    numKeysWithErrors := uint32Mod (d.numKeysWithErrors + keys.length) }

/-- `MutationDiffer.addDiff` (mutationDiffer.go:297-312): merge one worker's
local diff into the global mappings under the state lock (assignment per
key, last write wins). -/
def addDiff (d : DifferState) (wd : WorkerDiff) : DifferState :=
  { d with
    missingFromSource :=
      wd.missingFromSource.foldl (fun m e => upsert m e.1 e.2) d.missingFromSource
    missingFromTarget :=
      wd.missingFromTarget.foldl (fun m e => upsert m e.1 e.2) d.missingFromTarget
    diff := wd.diff.foldl (fun m e => upsert m e.1 e.2) d.diff }

/-- A worker's own result maps (`DifferWorker.sourceResults` /
`targetResults`, mutationDiffer.go:328-329), written only by the worker's
sequential batch loop. -/
structure WorkerState where
  sourceResults : List (String × GetResult)
  targetResults : List (String × GetResult)
deriving Repr, DecidableEq

def initialWorkerState : WorkerState := ⟨[], []⟩

/-- `DifferWorker.mergeResults` (mutationDiffer.go:394-402): copy each batch
entry (`Clone`, a shallow copy, i.e. the identity on the embedded fields)
into the worker's maps. -/
def mergeResults (w : WorkerState) (b : BatchState) : WorkerState :=
  { sourceResults := b.sourceResults.foldl (fun m e => upsert m e.1 e.2) w.sourceResults
    targetResults := b.targetResults.foldl (fun m e => upsert m e.1 e.2) w.targetResults }

/-- `DifferWorker.sendBatchWithRetry` (mutationDiffer.go:370-389) for the
batch `dw.keys[startIndex:endIndex]`: retry `sendBatchFunc` (brand-new batch
each attempt) until an attempt succeeds or the budget is exhausted; a
successful attempt merges its batch's results into the worker's maps; on
exhaustion the batch's keys are added to the global error list; either way
`numKeysProcessed` is bumped by the batch's key count. -/
def sendBatchWithRetry (d : DifferState) (w : WorkerState) (keys : List String)
    (startIndex endIndex : Nat) (attempts : List (List CBEvent)) :
    DifferState × WorkerState :=
  match firstSuccessfulBatch ((keys.drop startIndex).take (endIndex - startIndex)) attempts with
  | some b =>
    ({ d with numKeysProcessed := uint32Mod (d.numKeysProcessed + (endIndex - startIndex)) },
      mergeResults w b)
  | none =>
    ({ addKeysWithError d ((keys.drop startIndex).take (endIndex - startIndex)) with
        numKeysProcessed := uint32Mod (d.numKeysProcessed + (endIndex - startIndex)) },
      w)

/-- `DifferWorker.getResults` (mutationDiffer.go:351-368): drive the batch
ranges sequentially, threading the shared differ state and the worker's
result maps.  `attemptsFor` gives, per batch start index, the callbacks
landing in each of that batch's attempts. -/
def getResults (d : DifferState) (w : WorkerState) (keys : List String) (B : Nat)
    (attemptsFor : Nat → List (List CBEvent)) : DifferState × WorkerState :=
  (getResultsBatches keys.length B).foldl
    (fun p r => sendBatchWithRetry p.1 p.2 keys r.1 r.2 (attemptsFor r.1)) (d, w)

/-- `DifferWorker.run` (mutationDiffer.go:345-349): `getResults`, then
`diff`, whose worker-local result is handed to `MutationDiffer.addDiff`. -/
def workerRun (d : DifferState) (keys : List String) (B : Nat)
    (attemptsFor : Nat → List (List CBEvent)) : DifferState :=
  addDiff (getResults d initialWorkerState keys B attemptsFor).1
    (diffWorker (getResults d initialWorkerState keys B attemptsFor).2.sourceResults
      (getResults d initialWorkerState keys B attemptsFor).2.targetResults)

/-- Modelled from the spec: `utils.BalanceLoad` is not under src/.  Per §4.5
each worker gets a contiguous index range of size roughly `N/W` with the
remainder distributed (all range lengths are `⌊N/W⌋` or `⌈N/W⌉`, §8), the
ranges consecutively partitioning `[0, N)` starting at 0: each step hands
the first of the remaining `W` workers `⌈N/W⌉` of the remaining `N` keys. -/
def balanceLoadAux : Nat → Nat → Nat → List (Nat × Nat)
  | 0, _, _ => []
  | W + 1, N, start =>
    (start, start + (N + W) / (W + 1)) ::
      balanceLoadAux W (N - (N + W) / (W + 1)) (start + (N + W) / (W + 1))

/-- Modelled from the spec: the load distribution `utils.BalanceLoad(W, N)`
used by `MutationDiffer.Run` (mutationDiffer.go:123). -/
def balanceLoad (W N : Nat) : List (Nat × Nat) := balanceLoadAux W N 0

/-- `MutationDiffer.Run` (mutationDiffer.go:108-144) after the key list is
loaded and both connections opened: partition the keys with `BalanceLoad`,
skip zero-load workers (`lowIndex == highIndex`), and run every remaining
worker over its slice `diffKeys[lowIndex:highIndex]`.  The workers run
concurrently, but each merges into the shared state under the state lock
and the merges of distinct workers touch disjoint keys, so membership and
lookups in the final state are those of this sequential fold.  `att w s`
gives worker-`w`'s attempt events for its batch starting at `s`. -/
def differRun (keys : List String) (W B : Nat)
    (att : Nat → Nat → List (List CBEvent)) : DifferState :=
  (balanceLoad W keys.length).foldl
    (fun d r =>
      if r.1 = r.2 then d
      else workerRun d ((keys.drop r.1).take (r.2 - r.1)) B (att r.1))
    initialDifferState

theorem firstSuccessfulBatch_eq_none (bk : List String) (attempts : List (List CBEvent))
    (h : ∀ evs ∈ attempts, sendOk (batchSend bk evs) = false) :
    firstSuccessfulBatch bk attempts = none := by
  induction attempts with
  | nil => rfl
  | cons evs rest ih =>
    rw [firstSuccessfulBatch]
    cases hs : batchSend bk evs with
    | ok b =>
      have := h evs (List.mem_cons_self evs rest)
      rw [hs] at this
      simp [sendOk] at this
    | error msg =>
      exact ih (fun evs' h' => h evs' (List.mem_cons_of_mem evs h'))

theorem batchSend_ok_eq (keys : List String) (evs : List CBEvent) (b : BatchState)
    (h : batchSend keys evs = .ok b) : b = runBatch keys evs := by
  unfold batchSend at h
  split at h
  · exact (Except.ok.inj h).symm
  · exact Except.noConfusion h

theorem firstSuccessfulBatch_eq_some (bk : List String) (attempts : List (List CBEvent))
    (b : BatchState) (h : firstSuccessfulBatch bk attempts = some b) :
    ∃ evs ∈ attempts, batchSend bk evs = .ok b ∧ b = runBatch bk evs := by
  induction attempts with
  | nil => simp [firstSuccessfulBatch] at h
  | cons evs rest ih =>
    rw [firstSuccessfulBatch] at h
    cases hs : batchSend bk evs with
    | ok b' =>
      rw [hs] at h
      simp only [Option.some.injEq] at h
      subst h
      exact ⟨evs, List.mem_cons_self evs rest, hs, batchSend_ok_eq bk evs b' hs⟩
    | error msg =>
      rw [hs] at h
      obtain ⟨evs', hmem, hok, hrb⟩ := ih h
      exact ⟨evs', List.mem_cons_of_mem evs hmem, hok, hrb⟩

/-- Claim C6: for a batch all of whose send attempts fail, each attempt
re-issues the whole batch from scratch (a brand-new `NewBatch` inside
`sendBatchFunc`; in particular the worker's result maps are left completely
untouched — no partial results are resumed or retained), and after the
attempt budget is exhausted the batch's keys are appended to the global
`keysWithError` list exactly once, with `numKeysWithErrors` and
`numKeysProcessed` each bumped by exactly the batch's key count. -/
theorem c6_retry_exhaustion (d : DifferState) (w : WorkerState) (keys : List String)
    (s e : Nat) (attempts : List (List CBEvent))
    (hfail : ∀ evs ∈ attempts, sendOk (batchSend ((keys.drop s).take (e - s)) evs) = false) :
    sendBatchWithRetry d w keys s e attempts =
      ({ d with
          keysWithError := d.keysWithError ++ (keys.drop s).take (e - s)
          numKeysWithErrors :=
            uint32Mod (d.numKeysWithErrors + ((keys.drop s).take (e - s)).length)
          numKeysProcessed := uint32Mod (d.numKeysProcessed + (e - s)) },
        w) := by
  unfold sendBatchWithRetry
  rw [firstSuccessfulBatch_eq_none _ _ hfail]
  rfl

/-- Claim C6 witness: a two-key batch whose two attempts both receive no
callbacks (hence time out) lands its keys in `keysWithError` once, with the
counters bumped by two, and the worker maps untouched. -/
theorem c6_retry_exhaustion_witness :
    sendBatchWithRetry initialDifferState initialWorkerState ["a", "b"] 0 2 [[], []] =
      ({ initialDifferState with
          keysWithError :=
            initialDifferState.keysWithError ++
              ((["a", "b"] : List String).drop 0).take (2 - 0)
          numKeysWithErrors :=
            uint32Mod (initialDifferState.numKeysWithErrors +
              (((["a", "b"] : List String).drop 0).take (2 - 0)).length)
          numKeysProcessed := uint32Mod (initialDifferState.numKeysProcessed + (2 - 0)) },
        initialWorkerState) :=
  c6_retry_exhaustion initialDifferState initialWorkerState ["a", "b"] 0 2 [[], []]
    (by decide)

/-! ### Counter accounting (claim C4) -/

theorem sendBatchWithRetry_numKeysProcessed (d : DifferState) (w : WorkerState)
    (keys : List String) (s e : Nat) (attempts : List (List CBEvent)) :
    (sendBatchWithRetry d w keys s e attempts).1.numKeysProcessed =
      uint32Mod (d.numKeysProcessed + (e - s)) := by
  unfold sendBatchWithRetry
  cases firstSuccessfulBatch ((keys.drop s).take (e - s)) attempts <;> rfl

theorem sendBatchWithRetry_lt (d : DifferState) (w : WorkerState)
    (keys : List String) (s e : Nat) (attempts : List (List CBEvent)) :
    (sendBatchWithRetry d w keys s e attempts).1.numKeysProcessed < 4294967296 := by
  rw [sendBatchWithRetry_numKeysProcessed]
  exact Nat.mod_lt _ (by omega)

theorem foldRanges_numKeysProcessed (keys : List String) (att1 : Nat → List (List CBEvent)) :
    ∀ rs : List (Nat × Nat), ∀ p : DifferState × WorkerState,
      p.1.numKeysProcessed < 4294967296 →
      ((rs.foldl (fun p r => sendBatchWithRetry p.1 p.2 keys r.1 r.2 (att1 r.1))
          p).1.numKeysProcessed =
        uint32Mod (p.1.numKeysProcessed + (rs.map (fun r => r.2 - r.1)).sum)) := by
  intro rs
  induction rs with
  | nil =>
    intro p hd
    simp only [List.foldl_nil, List.map_nil, List.sum_nil, Nat.add_zero]
    rw [uint32Mod, Nat.mod_eq_of_lt hd]
  | cons r rs' ih =>
    intro p hd
    rw [List.foldl_cons, List.map_cons, List.sum_cons]
    have hstep := sendBatchWithRetry_numKeysProcessed p.1 p.2 keys r.1 r.2 (att1 r.1)
    have hlt := sendBatchWithRetry_lt p.1 p.2 keys r.1 r.2 (att1 r.1)
    rw [ih (sendBatchWithRetry p.1 p.2 keys r.1 r.2 (att1 r.1)) hlt, hstep]
    rw [uint32Mod, uint32Mod, uint32Mod, Nat.mod_add_mod]
    congr 1
    omega

theorem addDiff_numKeysProcessed (d : DifferState) (wd : WorkerDiff) :
    (addDiff d wd).numKeysProcessed = d.numKeysProcessed := rfl

theorem workerRun_numKeysProcessed (d : DifferState) (ws : List String) (B : Nat)
    (att1 : Nat → List (List CBEvent)) (hB : 0 < B)
    (hd : d.numKeysProcessed < 4294967296) :
    (workerRun d ws B att1).numKeysProcessed =
      uint32Mod (d.numKeysProcessed + ws.length) := by
  unfold workerRun
  rw [addDiff_numKeysProcessed]
  unfold getResults
  rw [foldRanges_numKeysProcessed ws att1 (getResultsBatches ws.length B)
    (d, initialWorkerState) hd]
  have hs := batchRanges_sum_sizes ws.length ws.length B 0 hB (by omega)
  rw [Nat.sub_zero] at hs
  rw [show getResultsBatches ws.length B = batchRanges ws.length ws.length B 0 from rfl, hs]

theorem workerRun_lt (d : DifferState) (ws : List String) (B : Nat)
    (att1 : Nat → List (List CBEvent)) (hB : 0 < B)
    (hd : d.numKeysProcessed < 4294967296) :
    (workerRun d ws B att1).numKeysProcessed < 4294967296 := by
  rw [workerRun_numKeysProcessed d ws B att1 hB hd]
  exact Nat.mod_lt _ (by omega)

theorem balanceLoad_ceil_le (N W : Nat) : (N + W) / (W + 1) ≤ N := by
  rw [Nat.div_le_iff_le_mul_add_pred (by omega : 0 < W + 1)]
  have h : N ≤ (W + 1) * N := Nat.le_mul_of_pos_left N (by omega)
  omega

theorem balanceLoadAux_bounds :
    ∀ W N start, ∀ r ∈ balanceLoadAux W N start, start ≤ r.1 ∧ r.1 ≤ r.2 ∧ r.2 ≤ start + N := by
  intro W
  induction W with
  | zero =>
    intro N start r hr
    simp [balanceLoadAux] at hr
  | succ V ih =>
    intro N start r hr
    rw [balanceLoadAux] at hr
    have hc : (N + V) / (V + 1) ≤ N := balanceLoad_ceil_le N V
    generalize hC : (N + V) / (V + 1) = c at hr hc
    rcases List.mem_cons.mp hr with h | h
    · subst h
      exact ⟨le_refl _, Nat.le_add_right start c, Nat.add_le_add_left hc start⟩
    · have := ih (N - c) (start + c) r h
      omega

theorem balanceLoadAux_sum :
    ∀ W N start, 0 < W →
      ((balanceLoadAux W N start).map (fun r => r.2 - r.1)).sum = N := by
  intro W
  induction W with
  | zero =>
    intro N start h
    omega
  | succ V ih =>
    intro N start _
    rw [balanceLoadAux, List.map_cons, List.sum_cons]
    cases V with
    | zero =>
      rw [balanceLoadAux]
      simp only [List.map_nil, List.sum_nil]
      show start + (N + 0) / (0 + 1) - start + 0 = N
      simp only [Nat.add_zero, Nat.div_one]
      omega
    | succ V' =>
      have hc : (N + (V' + 1)) / (V' + 1 + 1) ≤ N := balanceLoad_ceil_le N (V' + 1)
      rw [ih (N - (N + (V' + 1)) / (V' + 1 + 1)) (start + (N + (V' + 1)) / (V' + 1 + 1))
        (by omega)]
      show start + (N + (V' + 1)) / (V' + 1 + 1) - start +
          (N - (N + (V' + 1)) / (V' + 1 + 1)) = N
      generalize (N + (V' + 1)) / (V' + 1 + 1) = c at hc ⊢
      omega

/-- Claim C4: after a full run every batch — successful or retry-exhausted —
bumps `numKeysProcessed` by exactly its key count, the batches of each
worker partition that worker's key slice, and the worker slices partition
the candidate key list, so the final `numKeysProcessed` equals the number of
candidate keys loaded at startup (the counter being a `uint32`, this needs
the key count to fit in 32 bits). -/
theorem differFold_numKeysProcessed (keys : List String) (B : Nat)
    (att : Nat → Nat → List (List CBEvent)) (hB : 0 < B) :
    ∀ rs : List (Nat × Nat), ∀ d : DifferState,
      d.numKeysProcessed < 4294967296 →
      (∀ r ∈ rs, r.1 ≤ r.2 ∧ r.2 ≤ keys.length) →
      ((rs.foldl
          (fun d r =>
            if r.1 = r.2 then d
            else workerRun d ((keys.drop r.1).take (r.2 - r.1)) B (att r.1))
          d).numKeysProcessed =
        uint32Mod (d.numKeysProcessed + (rs.map (fun r => r.2 - r.1)).sum)) := by
  intro rs
  induction rs with
  | nil =>
    intro d hd _
    simp only [List.foldl_nil, List.map_nil, List.sum_nil, Nat.add_zero]
    rw [uint32Mod, Nat.mod_eq_of_lt hd]
  | cons r rs' ih =>
    intro d hd hbnd
    rw [List.foldl_cons, List.map_cons, List.sum_cons]
    by_cases hskip : r.1 = r.2
    · rw [if_pos hskip, ih d hd (fun r' h' => hbnd r' (List.mem_cons_of_mem r h'))]
      congr 1
      omega
    · rw [if_neg hskip]
      have hbr := hbnd r (List.mem_cons_self r rs')
      have hlen : ((keys.drop r.1).take (r.2 - r.1)).length = r.2 - r.1 := by
        rw [List.length_take, List.length_drop]
        omega
      have hw := workerRun_numKeysProcessed d ((keys.drop r.1).take (r.2 - r.1)) B (att r.1)
        hB hd
      have hwlt := workerRun_lt d ((keys.drop r.1).take (r.2 - r.1)) B (att r.1) hB hd
      rw [ih _ hwlt (fun r' h' => hbnd r' (List.mem_cons_of_mem r h')), hw, hlen]
      rw [uint32Mod, uint32Mod, uint32Mod, Nat.mod_add_mod]
      congr 1
      omega

/-- Claim C4: after a full run every batch — successful or retry-exhausted —
bumps `numKeysProcessed` by exactly its key count, the batches of each
worker partition that worker's key slice, and the worker slices partition
the candidate key list, so the final `numKeysProcessed` equals the number of
candidate keys loaded at startup (the counter being a `uint32`, this needs
that count to fit in 32 bits). -/
theorem c4_processed_equals_total (keys : List String) (W B : Nat)
    (att : Nat → Nat → List (List CBEvent)) (hW : 0 < W) (hB : 0 < B)
    (hN : keys.length < 4294967296) :
    (differRun keys W B att).numKeysProcessed = keys.length := by
  have hb : ∀ r ∈ balanceLoad W keys.length, r.1 ≤ r.2 ∧ r.2 ≤ keys.length := by
    intro r hr
    have := balanceLoadAux_bounds W keys.length 0 r hr
    omega
  unfold differRun
  rw [differFold_numKeysProcessed keys B att hB (balanceLoad W keys.length)
    initialDifferState (by show (0 : Nat) < 4294967296; omega) hb]
  have hsum : ((balanceLoad W keys.length).map (fun r => r.2 - r.1)).sum = keys.length :=
    balanceLoadAux_sum W keys.length 0 hW
  rw [hsum]
  show (0 + keys.length) % 4294967296 = keys.length
  omega

/-- Claim C4 witness: three keys, two workers, batch size two, no callbacks
ever landing (every batch exhausts its — empty — attempt budget): all three
keys are still counted as processed. -/
theorem c4_processed_equals_total_witness :
    (differRun ["a", "b", "c"] 2 2 (fun _ _ => [])).numKeysProcessed =
      (["a", "b", "c"] : List String).length :=
  c4_processed_equals_total ["a", "b", "c"] 2 2 (fun _ _ => [])
    (by decide) (by decide) (by decide)

/-! ### Generic fold-of-upserts lemmas -/

theorem foldl_upsert_lookup_of_not_mem {α : Type} (l : List (String × α)) :
    ∀ (m : List (String × α)) (k : String), (∀ e ∈ l, e.1 ≠ k) →
      alookup (l.foldl (fun m e => upsert m e.1 e.2) m) k = alookup m k := by
  induction l with
  | nil => intro m k _; rfl
  | cons e l' ih =>
    intro m k h
    rw [List.foldl_cons, ih _ k (fun e' he' => h e' (List.mem_cons_of_mem e he'))]
    exact alookup_upsert_ne m e.1 e.2 k (Ne.symm (h e (List.mem_cons_self e l')))

theorem foldl_upsert_lookup_none {α : Type} (l m : List (String × α)) (k : String)
    (h : alookup l k = none) :
    alookup (l.foldl (fun m e => upsert m e.1 e.2) m) k = alookup m k := by
  apply foldl_upsert_lookup_of_not_mem
  intro e he hk
  rw [alookup_eq_none_iff] at h
  exact h (hk ▸ List.mem_map.mpr ⟨e, he, rfl⟩)

theorem foldl_upsert_lookup_some {α : Type} (l : List (String × α)) :
    ∀ (k : String) (v : α), (akeys l).Nodup → alookup l k = some v →
      ∀ m, alookup (l.foldl (fun m e => upsert m e.1 e.2) m) k = some v := by
  induction l with
  | nil => intro k v _ h; exact absurd h (by simp [alookup])
  | cons e l' ih =>
    intro k v hnd h m
    obtain ⟨k1, v1⟩ := e
    rw [akeys_cons] at hnd
    rw [alookup_cons] at h
    rw [List.foldl_cons]
    by_cases h1 : k1 = k
    · rw [if_pos h1] at h
      have hrest : alookup l' k = none := by
        rw [alookup_eq_none_iff]
        intro hkmem
        exact (List.nodup_cons.mp hnd).1 (h1 ▸ hkmem)
      rw [foldl_upsert_lookup_none l' _ k hrest]
      show alookup (upsert m k1 v1) k = some v
      rw [h1, alookup_upsert_self m k v1]
      exact h
    · rw [if_neg h1] at h
      exact ih k v (List.nodup_cons.mp hnd).2 h (upsert m k1 v1)

theorem nodup_akeys_foldl_upsert {α : Type} (l : List (String × α)) :
    ∀ m : List (String × α), (akeys m).Nodup →
      (akeys (l.foldl (fun m e => upsert m e.1 e.2) m)).Nodup := by
  induction l with
  | nil => intro m h; exact h
  | cons e l' ih =>
    intro m h
    rw [List.foldl_cons]
    exact ih _ (nodup_akeys_upsert m e.1 e.2 h)

/-! ### Classification of completed pairs -/

/-- A completed pair of entries (both `Key ≠ ""`) is never skipped by
`DifferWorker.diff`'s loop. -/
theorem classifyKey_ne_skipped (sr tr : GetResult)
    (hsk : sr.Key ≠ "") (htk : tr.Key ≠ "") :
    classifyKey sr tr ≠ .skipped := by
  have h1 : (sr.Key == "") = false := by simpa using hsk
  have h2 : (tr.Key == "") = false := by simpa using htk
  unfold classifyKey
  rw [h1, h2]
  simp only [Bool.false_eq_true, if_false]
  split
  · intro h
    simp at h
  · split
    · intro h
      simp at h
    · split
      · intro h
        simp at h
      · intro h
        simp at h

/-! ### Characterizing the worker diff (`DifferWorker.diff`) at one key -/

theorem diffStep_lookup_ne (acc : WorkerDiff) (key : String) (sr tr : GetResult)
    (k : String) (h : k ≠ key) :
    alookup (diffStep acc key sr tr).missingFromSource k = alookup acc.missingFromSource k ∧
      alookup (diffStep acc key sr tr).missingFromTarget k =
        alookup acc.missingFromTarget k ∧
      alookup (diffStep acc key sr tr).diff k = alookup acc.diff k := by
  unfold diffStep
  cases classifyKey sr tr with
  | skipped => exact ⟨rfl, rfl, rfl⟩
  | missingFromSource doc =>
    exact ⟨alookup_upsert_ne _ _ _ _ h, rfl, rfl⟩
  | missingFromTarget doc =>
    exact ⟨rfl, alookup_upsert_ne _ _ _ _ h, rfl⟩
  | mismatch s t =>
    exact ⟨rfl, rfl, alookup_upsert_ne _ _ _ _ h⟩
  | matched => exact ⟨rfl, rfl, rfl⟩

/-- The body folded by `diffWorker`. -/
def diffWorkerStep (targetResults : List (String × GetResult)) (acc : WorkerDiff)
    (e : String × GetResult) : WorkerDiff :=
  match alookup targetResults e.1 with
  | none => acc
  | some targetResult => diffStep acc e.1 e.2 targetResult

theorem diffWorker_eq_foldl (sourceResults targetResults : List (String × GetResult)) :
    diffWorker sourceResults targetResults =
      sourceResults.foldl (diffWorkerStep targetResults) emptyWorkerDiff := rfl

theorem diffWorkerStep_lookup_ne (tgt : List (String × GetResult)) (acc : WorkerDiff)
    (e : String × GetResult) (k : String) (h : k ≠ e.1) :
    alookup (diffWorkerStep tgt acc e).missingFromSource k =
        alookup acc.missingFromSource k ∧
      alookup (diffWorkerStep tgt acc e).missingFromTarget k =
        alookup acc.missingFromTarget k ∧
      alookup (diffWorkerStep tgt acc e).diff k = alookup acc.diff k := by
  unfold diffWorkerStep
  cases alookup tgt e.1 with
  | none => exact ⟨rfl, rfl, rfl⟩
  | some tr => exact diffStep_lookup_ne acc e.1 e.2 tr k h

theorem foldl_diffWorkerStep_lookup_of_not_mem (tgt : List (String × GetResult)) (k : String) :
    ∀ (src : List (String × GetResult)) (acc : WorkerDiff),
      alookup src k = none →
      alookup (src.foldl (diffWorkerStep tgt) acc).missingFromSource k =
          alookup acc.missingFromSource k ∧
        alookup (src.foldl (diffWorkerStep tgt) acc).missingFromTarget k =
          alookup acc.missingFromTarget k ∧
        alookup (src.foldl (diffWorkerStep tgt) acc).diff k = alookup acc.diff k := by
  intro src
  induction src with
  | nil => intro acc _; exact ⟨rfl, rfl, rfl⟩
  | cons e src' ih =>
    intro acc h
    obtain ⟨k1, v1⟩ := e
    rw [alookup_cons] at h
    by_cases h1 : k1 = k
    · rw [if_pos h1] at h
      exact Option.noConfusion h
    · rw [if_neg h1] at h
      rw [List.foldl_cons]
      obtain ⟨ha, hb, hc⟩ := ih (diffWorkerStep tgt acc (k1, v1)) h
      obtain ⟨ha', hb', hc'⟩ :=
        diffWorkerStep_lookup_ne tgt acc (k1, v1) k (fun hh => h1 (hh.symm))
      exact ⟨ha.trans ha', hb.trans hb', hc.trans hc'⟩

/-- The classification-directed value of each output mapping at one key. -/
def classOutMfs : DiffClassification → Option (Option GocbGetResult)
  | .missingFromSource doc => some doc
  | _ => none

def classOutMft : DiffClassification → Option (Option GocbGetResult)
  | .missingFromTarget doc => some doc
  | _ => none

def classOutDiff : DiffClassification → Option (Option GocbGetResult × Option GocbGetResult)
  | .mismatch s t => some (s, t)
  | _ => none

theorem diffWorkerStep_pair (tgt : List (String × GetResult)) (acc : WorkerDiff)
    (k1 : String) (v1 : GetResult) :
    diffWorkerStep tgt acc (k1, v1) =
      match alookup tgt k1 with
      | none => acc
      | some tr => diffStep acc k1 v1 tr := rfl

theorem diffStep_lookup_self (acc : WorkerDiff) (key : String) (sr tr : GetResult)
    (hm1 : alookup acc.missingFromSource key = none)
    (hm2 : alookup acc.missingFromTarget key = none)
    (hm3 : alookup acc.diff key = none) :
    alookup (diffStep acc key sr tr).missingFromSource key =
        classOutMfs (classifyKey sr tr) ∧
      alookup (diffStep acc key sr tr).missingFromTarget key =
        classOutMft (classifyKey sr tr) ∧
      alookup (diffStep acc key sr tr).diff key = classOutDiff (classifyKey sr tr) := by
  unfold diffStep
  cases hcl : classifyKey sr tr <;>
    simp [classOutMfs, classOutMft, classOutDiff, alookup_upsert_self, hm1, hm2, hm3]

theorem foldl_diffWorkerStep_lookup_of_mem (tgt : List (String × GetResult)) (k : String)
    (tr : GetResult) (htgt : alookup tgt k = some tr) :
    ∀ (src : List (String × GetResult)) (sr : GetResult) (acc : WorkerDiff),
      (akeys src).Nodup → alookup src k = some sr →
      alookup acc.missingFromSource k = none →
      alookup acc.missingFromTarget k = none →
      alookup acc.diff k = none →
      alookup (src.foldl (diffWorkerStep tgt) acc).missingFromSource k =
          classOutMfs (classifyKey sr tr) ∧
        alookup (src.foldl (diffWorkerStep tgt) acc).missingFromTarget k =
          classOutMft (classifyKey sr tr) ∧
        alookup (src.foldl (diffWorkerStep tgt) acc).diff k =
          classOutDiff (classifyKey sr tr) := by
  intro src
  induction src with
  | nil =>
    intro sr acc _ h
    exact absurd h (by simp [alookup])
  | cons e src' ih =>
    intro sr acc hnd h hm1 hm2 hm3
    obtain ⟨k1, v1⟩ := e
    rw [akeys_cons] at hnd
    rw [alookup_cons] at h
    rw [List.foldl_cons]
    by_cases h1 : k1 = k
    · rw [if_pos h1] at h
      have hv1 : v1 = sr := Option.some.inj h
      subst hv1
      subst h1
      have hrest : alookup src' k1 = none := by
        rw [alookup_eq_none_iff]
        exact (List.nodup_cons.mp hnd).1
      obtain ⟨ha, hb, hc⟩ := foldl_diffWorkerStep_lookup_of_not_mem tgt k1 src'
        (diffWorkerStep tgt acc (k1, v1)) hrest
      have hstepEq : diffWorkerStep tgt acc (k1, v1) = diffStep acc k1 v1 tr := by
        rw [diffWorkerStep_pair, htgt]
      obtain ⟨hs1, hs2, hs3⟩ := diffStep_lookup_self acc k1 v1 tr hm1 hm2 hm3
      rw [hstepEq] at ha hb hc ⊢
      exact ⟨ha.trans hs1, hb.trans hs2, hc.trans hs3⟩
    · rw [if_neg h1] at h
      obtain ⟨ha', hb', hc'⟩ :=
        diffWorkerStep_lookup_ne tgt acc (k1, v1) k (fun hh => h1 (hh.symm))
      exact ih sr (diffWorkerStep tgt acc (k1, v1)) (List.nodup_cons.mp hnd).2 h
        (ha'.trans hm1) (hb'.trans hm2) (hc'.trans hm3)

theorem diffWorker_lookup_of_mem (src tgt : List (String × GetResult)) (k : String)
    (sr tr : GetResult) (hnd : (akeys src).Nodup)
    (hsrc : alookup src k = some sr) (htgt : alookup tgt k = some tr) :
    alookup (diffWorker src tgt).missingFromSource k = classOutMfs (classifyKey sr tr) ∧
      alookup (diffWorker src tgt).missingFromTarget k = classOutMft (classifyKey sr tr) ∧
      alookup (diffWorker src tgt).diff k = classOutDiff (classifyKey sr tr) := by
  rw [diffWorker_eq_foldl]
  exact foldl_diffWorkerStep_lookup_of_mem tgt k tr htgt src sr emptyWorkerDiff hnd hsrc
    rfl rfl rfl

theorem diffWorker_lookup_of_not_mem (src tgt : List (String × GetResult)) (k : String)
    (hsrc : alookup src k = none) :
    alookup (diffWorker src tgt).missingFromSource k = none ∧
      alookup (diffWorker src tgt).missingFromTarget k = none ∧
      alookup (diffWorker src tgt).diff k = none := by
  rw [diffWorker_eq_foldl]
  exact foldl_diffWorkerStep_lookup_of_not_mem tgt k src emptyWorkerDiff hsrc

theorem nodup_akeys_diffStep (acc : WorkerDiff) (key : String) (sr tr : GetResult)
    (h1 : (akeys acc.missingFromSource).Nodup) (h2 : (akeys acc.missingFromTarget).Nodup)
    (h3 : (akeys acc.diff).Nodup) :
    (akeys (diffStep acc key sr tr).missingFromSource).Nodup ∧
      (akeys (diffStep acc key sr tr).missingFromTarget).Nodup ∧
      (akeys (diffStep acc key sr tr).diff).Nodup := by
  unfold diffStep
  cases classifyKey sr tr with
  | skipped => exact ⟨h1, h2, h3⟩
  | missingFromSource doc => exact ⟨nodup_akeys_upsert _ _ _ h1, h2, h3⟩
  | missingFromTarget doc => exact ⟨h1, nodup_akeys_upsert _ _ _ h2, h3⟩
  | mismatch s t => exact ⟨h1, h2, nodup_akeys_upsert _ _ _ h3⟩
  | matched => exact ⟨h1, h2, h3⟩

theorem nodup_akeys_diffWorker (src tgt : List (String × GetResult)) :
    (akeys (diffWorker src tgt).missingFromSource).Nodup ∧
      (akeys (diffWorker src tgt).missingFromTarget).Nodup ∧
      (akeys (diffWorker src tgt).diff).Nodup := by
  rw [diffWorker_eq_foldl]
  have main : ∀ (l : List (String × GetResult)) (acc : WorkerDiff),
      (akeys acc.missingFromSource).Nodup → (akeys acc.missingFromTarget).Nodup →
      (akeys acc.diff).Nodup →
      (akeys (l.foldl (diffWorkerStep tgt) acc).missingFromSource).Nodup ∧
        (akeys (l.foldl (diffWorkerStep tgt) acc).missingFromTarget).Nodup ∧
        (akeys (l.foldl (diffWorkerStep tgt) acc).diff).Nodup := by
    intro l
    induction l with
    | nil => intro acc h1 h2 h3; exact ⟨h1, h2, h3⟩
    | cons e l' ih =>
      intro acc h1 h2 h3
      rw [List.foldl_cons]
      have hstep :
          (akeys (diffWorkerStep tgt acc e).missingFromSource).Nodup ∧
            (akeys (diffWorkerStep tgt acc e).missingFromTarget).Nodup ∧
            (akeys (diffWorkerStep tgt acc e).diff).Nodup := by
        unfold diffWorkerStep
        cases alookup tgt e.1 with
        | none => exact ⟨h1, h2, h3⟩
        | some tr => exact nodup_akeys_diffStep acc e.1 e.2 tr h1 h2 h3
      exact ih _ hstep.1 hstep.2.1 hstep.2.2
  exact main src emptyWorkerDiff (by simp [emptyWorkerDiff, akeys])
    (by simp [emptyWorkerDiff, akeys]) (by simp [emptyWorkerDiff, akeys])

/-! ### Per-key effect of one retried batch -/

theorem batchSend_ok_counts (keys : List String) (evs : List CBEvent) (b : BatchState)
    (h : batchSend keys evs = .ok b) :
    (runBatch keys evs).sourceResultCount = keys.length ∧
      (runBatch keys evs).targetResultCount = keys.length := by
  by_cases hc : (runBatch keys evs).sourceResultCount = keys.length ∧
      (runBatch keys evs).targetResultCount = keys.length
  · exact hc
  · rw [batchSend, if_neg hc] at h
    exact Except.noConfusion h

theorem sendBatchWithRetry_globals (d : DifferState) (w : WorkerState) (keys : List String)
    (s e : Nat) (attempts : List (List CBEvent)) :
    (sendBatchWithRetry d w keys s e attempts).1.missingFromSource = d.missingFromSource ∧
      (sendBatchWithRetry d w keys s e attempts).1.missingFromTarget = d.missingFromTarget ∧
      (sendBatchWithRetry d w keys s e attempts).1.diff = d.diff := by
  unfold sendBatchWithRetry
  cases firstSuccessfulBatch ((keys.drop s).take (e - s)) attempts <;> exact ⟨rfl, rfl, rfl⟩

theorem runBatch_akeys_src (keys : List String) (evs : List CBEvent) :
    akeys (runBatch keys evs).sourceResults = keys := by
  unfold runBatch
  rw [foldl_applyCallback_akeys_src, akeys_NewBatch_src]

theorem runBatch_akeys_tgt (keys : List String) (evs : List CBEvent) :
    akeys (runBatch keys evs).targetResults = keys := by
  unfold runBatch
  rw [foldl_applyCallback_akeys_tgt, akeys_NewBatch_tgt]

theorem sendBatchWithRetry_preserve (d : DifferState) (w : WorkerState) (keys : List String)
    (s e : Nat) (attempts : List (List CBEvent)) (k : String)
    (hk : k ∉ (keys.drop s).take (e - s)) :
    (k ∈ (sendBatchWithRetry d w keys s e attempts).1.keysWithError ↔
        k ∈ d.keysWithError) ∧
      alookup (sendBatchWithRetry d w keys s e attempts).2.sourceResults k =
        alookup w.sourceResults k ∧
      alookup (sendBatchWithRetry d w keys s e attempts).2.targetResults k =
        alookup w.targetResults k := by
  unfold sendBatchWithRetry
  cases hfs : firstSuccessfulBatch ((keys.drop s).take (e - s)) attempts with
  | none =>
    refine ⟨?_, rfl, rfl⟩
    show k ∈ d.keysWithError ++ (keys.drop s).take (e - s) ↔ k ∈ d.keysWithError
    rw [List.mem_append]
    exact ⟨fun h => h.elim id (fun h' => absurd h' hk), Or.inl⟩
  | some b =>
    obtain ⟨evs, hmem, hok, hrb⟩ := firstSuccessfulBatch_eq_some _ _ b hfs
    have haks : akeys b.sourceResults = (keys.drop s).take (e - s) := by
      rw [hrb]
      exact runBatch_akeys_src _ _
    have hakt : akeys b.targetResults = (keys.drop s).take (e - s) := by
      rw [hrb]
      exact runBatch_akeys_tgt _ _
    refine ⟨Iff.rfl, ?_, ?_⟩
    · show alookup (mergeResults w b).sourceResults k = alookup w.sourceResults k
      unfold mergeResults
      apply foldl_upsert_lookup_none
      rw [alookup_eq_none_iff, haks]
      exact hk
    · show alookup (mergeResults w b).targetResults k = alookup w.targetResults k
      unfold mergeResults
      apply foldl_upsert_lookup_none
      rw [alookup_eq_none_iff, hakt]
      exact hk

theorem sendBatchWithRetry_key_fate (d : DifferState) (w : WorkerState) (keys : List String)
    (s e : Nat) (attempts : List (List CBEvent)) (k : String)
    (hk : k ∈ (keys.drop s).take (e - s))
    (hnd : ((keys.drop s).take (e - s)).Nodup)
    (hv : ∀ evs ∈ attempts, validEvents ((keys.drop s).take (e - s)) evs) :
    ((sendBatchWithRetry d w keys s e attempts).1.keysWithError =
        d.keysWithError ++ (keys.drop s).take (e - s) ∧
      (sendBatchWithRetry d w keys s e attempts).2 = w)
    ∨ ((sendBatchWithRetry d w keys s e attempts).1.keysWithError = d.keysWithError ∧
      (∃ rs es, alookup (sendBatchWithRetry d w keys s e attempts).2.sourceResults k =
        some ⟨k, rs, es⟩) ∧
      ∃ rt et, alookup (sendBatchWithRetry d w keys s e attempts).2.targetResults k =
        some ⟨k, rt, et⟩) := by
  unfold sendBatchWithRetry
  cases hfs : firstSuccessfulBatch ((keys.drop s).take (e - s)) attempts with
  | none => exact Or.inl ⟨rfl, rfl⟩
  | some b =>
    right
    obtain ⟨evs, hmem, hok, hrb⟩ := firstSuccessfulBatch_eq_some _ _ b hfs
    obtain ⟨hcs, hct⟩ := batchSend_ok_counts _ _ _ hok
    obtain ⟨es, hes, hsrc1, hkey1, hlook1⟩ :=
      runBatch_populated_src ((keys.drop s).take (e - s)) evs k hnd (hv evs hmem) hk hcs
    obtain ⟨et, het, htgt1, hkey2, hlook2⟩ :=
      runBatch_populated_tgt ((keys.drop s).take (e - s)) evs k hnd (hv evs hmem) hk hct
    have hndbs : (akeys b.sourceResults).Nodup := by
      rw [hrb, runBatch_akeys_src]
      exact hnd
    have hndbt : (akeys b.targetResults).Nodup := by
      rw [hrb, runBatch_akeys_tgt]
      exact hnd
    refine ⟨rfl, ⟨es.result, es.error, ?_⟩, ⟨et.result, et.error, ?_⟩⟩
    · show alookup (mergeResults w b).sourceResults k = _
      unfold mergeResults
      exact foldl_upsert_lookup_some b.sourceResults k ⟨k, es.result, es.error⟩ hndbs
        (by rw [hrb]; exact hlook1) w.sourceResults
    · show alookup (mergeResults w b).targetResults k = _
      unfold mergeResults
      exact foldl_upsert_lookup_some b.targetResults k ⟨k, et.result, et.error⟩ hndbt
        (by rw [hrb]; exact hlook2) w.targetResults

/-- Splitting a list of blocks at the unique block containing `k`. -/
theorem exists_unique_split {β : Type} (f : β → List String) (k : String) :
    ∀ rs : List β, ((rs.map f).flatten.count k = 1) →
      ∃ rs₁ r rs₂, rs = rs₁ ++ r :: rs₂ ∧ k ∈ f r ∧
        (∀ r' ∈ rs₁, k ∉ f r') ∧ ∀ r' ∈ rs₂, k ∉ f r' := by
  intro rs
  induction rs with
  | nil => intro h; simp at h
  | cons r rs' ih =>
    intro h
    rw [List.map_cons, List.flatten_cons, List.count_append] at h
    by_cases hk : k ∈ f r
    · have h1 : 1 ≤ (f r).count k := List.one_le_count_iff.mpr hk
      have h2 : ((rs'.map f).flatten).count k = 0 := by omega
      refine ⟨[], r, rs', rfl, hk, by simp, ?_⟩
      intro r' hr' hkr'
      rw [List.count_eq_zero] at h2
      exact h2 (List.mem_flatten.mpr ⟨f r', List.mem_map.mpr ⟨r', hr', rfl⟩, hkr'⟩)
    · have h1 : (f r).count k = 0 := List.count_eq_zero.mpr hk
      have h2 : ((rs'.map f).flatten).count k = 1 := by omega
      obtain ⟨rs₁, r', rs₂, heq, hmem, hn1, hn2⟩ := ih h2
      refine ⟨r :: rs₁, r', rs₂, by rw [heq, List.cons_append], hmem, ?_, hn2⟩
      intro r'' hr''
      rcases List.mem_cons.mp hr'' with h' | h'
      · subst h'
        exact hk
      · exact hn1 r'' h'

/-! ### Per-key effect of a worker's whole batch loop -/

theorem foldRanges_globals (keys : List String) (att1 : Nat → List (List CBEvent)) :
    ∀ rs : List (Nat × Nat), ∀ p : DifferState × WorkerState,
      ((rs.foldl (fun p r => sendBatchWithRetry p.1 p.2 keys r.1 r.2 (att1 r.1))
            p).1.missingFromSource = p.1.missingFromSource) ∧
        ((rs.foldl (fun p r => sendBatchWithRetry p.1 p.2 keys r.1 r.2 (att1 r.1))
            p).1.missingFromTarget = p.1.missingFromTarget) ∧
        (rs.foldl (fun p r => sendBatchWithRetry p.1 p.2 keys r.1 r.2 (att1 r.1))
            p).1.diff = p.1.diff := by
  intro rs
  induction rs with
  | nil => intro p; exact ⟨rfl, rfl, rfl⟩
  | cons r rs' ih =>
    intro p
    rw [List.foldl_cons]
    obtain ⟨ha, hb, hc⟩ := ih (sendBatchWithRetry p.1 p.2 keys r.1 r.2 (att1 r.1))
    obtain ⟨ha', hb', hc'⟩ := sendBatchWithRetry_globals p.1 p.2 keys r.1 r.2 (att1 r.1)
    exact ⟨ha.trans ha', hb.trans hb', hc.trans hc'⟩

theorem foldRanges_preserve (keys : List String) (att1 : Nat → List (List CBEvent))
    (k : String) :
    ∀ rs : List (Nat × Nat), ∀ p : DifferState × WorkerState,
      (∀ r ∈ rs, k ∉ (keys.drop r.1).take (r.2 - r.1)) →
      ((k ∈ (rs.foldl (fun p r => sendBatchWithRetry p.1 p.2 keys r.1 r.2 (att1 r.1))
            p).1.keysWithError ↔ k ∈ p.1.keysWithError) ∧
        alookup (rs.foldl (fun p r => sendBatchWithRetry p.1 p.2 keys r.1 r.2 (att1 r.1))
            p).2.sourceResults k = alookup p.2.sourceResults k ∧
        alookup (rs.foldl (fun p r => sendBatchWithRetry p.1 p.2 keys r.1 r.2 (att1 r.1))
            p).2.targetResults k = alookup p.2.targetResults k) := by
  intro rs
  induction rs with
  | nil => intro p _; exact ⟨Iff.rfl, rfl, rfl⟩
  | cons r rs' ih =>
    intro p h
    rw [List.foldl_cons]
    obtain ⟨ha, hb, hc⟩ := ih (sendBatchWithRetry p.1 p.2 keys r.1 r.2 (att1 r.1))
      (fun r' hr' => h r' (List.mem_cons_of_mem r hr'))
    obtain ⟨ha', hb', hc'⟩ := sendBatchWithRetry_preserve p.1 p.2 keys r.1 r.2 (att1 r.1) k
      (h r (List.mem_cons_self r rs'))
    exact ⟨ha.trans ha', hb.trans hb', hc.trans hc'⟩

theorem sendBatchWithRetry_snd (d d' : DifferState) (w : WorkerState) (keys : List String)
    (s e : Nat) (attempts : List (List CBEvent)) :
    (sendBatchWithRetry d w keys s e attempts).2 =
      (sendBatchWithRetry d' w keys s e attempts).2 := by
  unfold sendBatchWithRetry
  cases firstSuccessfulBatch ((keys.drop s).take (e - s)) attempts <;> rfl

theorem foldRanges_snd_indep (keys : List String) (att1 : Nat → List (List CBEvent)) :
    ∀ rs : List (Nat × Nat), ∀ d d' : DifferState, ∀ w : WorkerState,
      (rs.foldl (fun p r => sendBatchWithRetry p.1 p.2 keys r.1 r.2 (att1 r.1)) (d, w)).2 =
        (rs.foldl (fun p r => sendBatchWithRetry p.1 p.2 keys r.1 r.2 (att1 r.1)) (d', w)).2 := by
  intro rs
  induction rs with
  | nil => intro d d' w; rfl
  | cons r rs' ih =>
    intro d d' w
    rw [List.foldl_cons, List.foldl_cons]
    have hsnd := sendBatchWithRetry_snd d d' w keys r.1 r.2 (att1 r.1)
    have hpair : sendBatchWithRetry d w keys r.1 r.2 (att1 r.1) =
        ((sendBatchWithRetry d w keys r.1 r.2 (att1 r.1)).1,
          (sendBatchWithRetry d' w keys r.1 r.2 (att1 r.1)).2) := by
      rw [← hsnd]
    rw [hpair]
    exact ih (sendBatchWithRetry d w keys r.1 r.2 (att1 r.1)).1
      (sendBatchWithRetry d' w keys r.1 r.2 (att1 r.1)).1
      (sendBatchWithRetry d' w keys r.1 r.2 (att1 r.1)).2

theorem getResults_key_fate (ws : List String) (B : Nat) (att1 : Nat → List (List CBEvent))
    (k : String) (d : DifferState) (hB : 0 < B) (hnd : ws.Nodup) (hk : k ∈ ws)
    (hv : ∀ r ∈ getResultsBatches ws.length B, ∀ evs ∈ att1 r.1,
      validEvents ((ws.drop r.1).take (r.2 - r.1)) evs)
    (hd : k ∉ d.keysWithError) :
    (k ∈ (getResults d initialWorkerState ws B att1).1.keysWithError ∧
      alookup (getResults d initialWorkerState ws B att1).2.sourceResults k = none ∧
      alookup (getResults d initialWorkerState ws B att1).2.targetResults k = none)
    ∨ (k ∉ (getResults d initialWorkerState ws B att1).1.keysWithError ∧
      (∃ rs es, alookup (getResults d initialWorkerState ws B att1).2.sourceResults k =
        some ⟨k, rs, es⟩) ∧
      ∃ rt et, alookup (getResults d initialWorkerState ws B att1).2.targetResults k =
        some ⟨k, rt, et⟩) := by
  have hflat : ((getResultsBatches ws.length B).map
      (fun r => (ws.drop r.1).take (r.2 - r.1))).flatten = ws := by
    simpa [getResultsBatches] using
      batchRanges_join_slices ws ws.length ws.length B 0 rfl hB (by omega)
  have hcount : ((getResultsBatches ws.length B).map
      (fun r => (ws.drop r.1).take (r.2 - r.1))).flatten.count k = 1 := by
    rw [hflat]
    exact List.count_eq_one_of_mem hnd hk
  obtain ⟨rs₁, r, rs₂, heq, hkr, hn1, hn2⟩ :=
    exists_unique_split (fun (q : Nat × Nat) => (ws.drop q.1).take (q.2 - q.1)) k _ hcount
  unfold getResults
  rw [heq, List.foldl_append, List.foldl_cons]
  obtain ⟨hq1e, hq1s, hq1t⟩ :=
    foldRanges_preserve ws att1 k rs₁ (d, initialWorkerState) hn1
  have hndsl : ((ws.drop r.1).take (r.2 - r.1)).Nodup :=
    ((List.take_sublist _ _).trans (List.drop_sublist _ _)).nodup hnd
  have hrmem : r ∈ getResultsBatches ws.length B := by
    rw [heq]
    exact List.mem_append_right _ (List.mem_cons_self r rs₂)
  have hvr := hv r hrmem
  rcases sendBatchWithRetry_key_fate
      (rs₁.foldl (fun (p : DifferState × WorkerState) (q : Nat × Nat) =>
          sendBatchWithRetry p.1 p.2 ws q.1 q.2 (att1 q.1))
        (d, initialWorkerState)).1
      (rs₁.foldl (fun (p : DifferState × WorkerState) (q : Nat × Nat) =>
          sendBatchWithRetry p.1 p.2 ws q.1 q.2 (att1 q.1))
        (d, initialWorkerState)).2
      ws r.1 r.2 (att1 r.1) k hkr hndsl hvr with hfail | hsucc
  · left
    obtain ⟨hkwe, hwid⟩ := hfail
    obtain ⟨hfe, hfs, hft⟩ := foldRanges_preserve ws att1 k rs₂ _ hn2
    refine ⟨?_, ?_, ?_⟩
    · exact hfe.mpr (hkwe ▸ List.mem_append_right _ hkr)
    · rw [hfs, hwid, hq1s]
      rfl
    · rw [hft, hwid, hq1t]
      rfl
  · right
    obtain ⟨hkwe, ⟨rsv, esv, hlooks⟩, ⟨rtv, etv, hlookt⟩⟩ := hsucc
    obtain ⟨hfe, hfs, hft⟩ := foldRanges_preserve ws att1 k rs₂ _ hn2
    refine ⟨?_, ⟨rsv, esv, ?_⟩, ⟨rtv, etv, ?_⟩⟩
    · intro hmem'
      have h' := hfe.mp hmem'
      rw [hkwe] at h'
      exact hd (hq1e.mp h')
    · rw [hfs]
      exact hlooks
    · rw [hft]
      exact hlookt

theorem addDiff_keysWithError (d : DifferState) (wd : WorkerDiff) :
    (addDiff d wd).keysWithError = d.keysWithError := rfl

theorem workerRun_preserve (d : DifferState) (ws : List String) (B : Nat)
    (att1 : Nat → List (List CBEvent)) (k : String) (hk : k ∉ ws) :
    (k ∈ (workerRun d ws B att1).keysWithError ↔ k ∈ d.keysWithError) ∧
      alookup (workerRun d ws B att1).missingFromSource k = alookup d.missingFromSource k ∧
      alookup (workerRun d ws B att1).missingFromTarget k = alookup d.missingFromTarget k ∧
      alookup (workerRun d ws B att1).diff k = alookup d.diff k := by
  have hslices : ∀ r ∈ getResultsBatches ws.length B, k ∉ (ws.drop r.1).take (r.2 - r.1) := by
    intro r hr hmem
    exact hk (((List.take_sublist _ _).trans (List.drop_sublist _ _)).subset hmem)
  obtain ⟨hpe, hps, hpt⟩ := foldRanges_preserve ws att1 k (getResultsBatches ws.length B)
    (d, initialWorkerState) hslices
  obtain ⟨hg1, hg2, hg3⟩ := foldRanges_globals ws att1 (getResultsBatches ws.length B)
    (d, initialWorkerState)
  have hwno : alookup (getResults d initialWorkerState ws B att1).2.sourceResults k = none :=
    hps.trans rfl
  obtain ⟨hw1, hw2, hw3⟩ := diffWorker_lookup_of_not_mem
    (getResults d initialWorkerState ws B att1).2.sourceResults
    (getResults d initialWorkerState ws B att1).2.targetResults k hwno
  refine ⟨hpe, ?_, ?_, ?_⟩
  · exact (foldl_upsert_lookup_none _ _ k hw1).trans (by unfold getResults; rw [hg1])
  · exact (foldl_upsert_lookup_none _ _ k hw2).trans (by unfold getResults; rw [hg2])
  · exact (foldl_upsert_lookup_none _ _ k hw3).trans (by unfold getResults; rw [hg3])

/-- First-of-two options (Go map overwrite semantics of `addDiff`: a worker
entry wins over whatever the global map held). -/
def ofirst {α : Type} : Option α → Option α → Option α
  | some v, _ => some v
  | none, b => b

theorem addDiff_lookup_mfs (d : DifferState) (wd : WorkerDiff) (k : String)
    (hnd : (akeys wd.missingFromSource).Nodup) :
    alookup (addDiff d wd).missingFromSource k =
      ofirst (alookup wd.missingFromSource k) (alookup d.missingFromSource k) := by
  cases h : alookup wd.missingFromSource k with
  | some v => exact foldl_upsert_lookup_some _ k v hnd h _
  | none => exact foldl_upsert_lookup_none _ _ k h

theorem addDiff_lookup_mft (d : DifferState) (wd : WorkerDiff) (k : String)
    (hnd : (akeys wd.missingFromTarget).Nodup) :
    alookup (addDiff d wd).missingFromTarget k =
      ofirst (alookup wd.missingFromTarget k) (alookup d.missingFromTarget k) := by
  cases h : alookup wd.missingFromTarget k with
  | some v => exact foldl_upsert_lookup_some _ k v hnd h _
  | none => exact foldl_upsert_lookup_none _ _ k h

theorem addDiff_lookup_diff (d : DifferState) (wd : WorkerDiff) (k : String)
    (hnd : (akeys wd.diff).Nodup) :
    alookup (addDiff d wd).diff k = ofirst (alookup wd.diff k) (alookup d.diff k) := by
  cases h : alookup wd.diff k with
  | some v => exact foldl_upsert_lookup_some _ k v hnd h _
  | none => exact foldl_upsert_lookup_none _ _ k h

theorem sendBatchWithRetry_nodup (d : DifferState) (w : WorkerState) (keys : List String)
    (s e : Nat) (attempts : List (List CBEvent))
    (h1 : (akeys w.sourceResults).Nodup) (h2 : (akeys w.targetResults).Nodup) :
    (akeys (sendBatchWithRetry d w keys s e attempts).2.sourceResults).Nodup ∧
      (akeys (sendBatchWithRetry d w keys s e attempts).2.targetResults).Nodup := by
  unfold sendBatchWithRetry
  cases firstSuccessfulBatch ((keys.drop s).take (e - s)) attempts with
  | none => exact ⟨h1, h2⟩
  | some b =>
    exact ⟨nodup_akeys_foldl_upsert b.sourceResults w.sourceResults h1,
      nodup_akeys_foldl_upsert b.targetResults w.targetResults h2⟩

theorem foldRanges_nodup (keys : List String) (att1 : Nat → List (List CBEvent)) :
    ∀ rs : List (Nat × Nat), ∀ p : DifferState × WorkerState,
      (akeys p.2.sourceResults).Nodup → (akeys p.2.targetResults).Nodup →
      (akeys (rs.foldl (fun p r => sendBatchWithRetry p.1 p.2 keys r.1 r.2 (att1 r.1))
          p).2.sourceResults).Nodup ∧
        (akeys (rs.foldl (fun p r => sendBatchWithRetry p.1 p.2 keys r.1 r.2 (att1 r.1))
          p).2.targetResults).Nodup := by
  intro rs
  induction rs with
  | nil => intro p h1 h2; exact ⟨h1, h2⟩
  | cons r rs' ih =>
    intro p h1 h2
    rw [List.foldl_cons]
    obtain ⟨h1', h2'⟩ := sendBatchWithRetry_nodup p.1 p.2 keys r.1 r.2 (att1 r.1) h1 h2
    exact ih _ h1' h2'

/-- The worker's result maps after its batch loop; they do not depend on the
shared differ state it was launched with (`mergeResults` never reads it), so
they can be computed from the initial state. -/
def workerStateOf (ws : List String) (B : Nat) (att1 : Nat → List (List CBEvent)) :
    WorkerState :=
  (getResults initialDifferState initialWorkerState ws B att1).2

theorem getResults_snd_eq_workerStateOf (d : DifferState) (ws : List String) (B : Nat)
    (att1 : Nat → List (List CBEvent)) :
    (getResults d initialWorkerState ws B att1).2 = workerStateOf ws B att1 := by
  unfold getResults workerStateOf getResults
  exact foldRanges_snd_indep ws att1 (getResultsBatches ws.length B) d initialDifferState
    initialWorkerState

theorem workerStateOf_nodup (ws : List String) (B : Nat)
    (att1 : Nat → List (List CBEvent)) :
    (akeys (workerStateOf ws B att1).sourceResults).Nodup ∧
      (akeys (workerStateOf ws B att1).targetResults).Nodup := by
  unfold workerStateOf getResults
  exact foldRanges_nodup ws att1 (getResultsBatches ws.length B)
    (initialDifferState, initialWorkerState) List.nodup_nil List.nodup_nil

/-- The fate of one key `k` owned by a worker over slice `ws`: either its
batch exhausted its retries (k is in the error list, its entries absent, the
global mappings untouched at `k`), or its batch succeeded and the comparator
classified its completed pair, updating exactly the mapping its
classification selects. -/
theorem workerRun_key_fate (d : DifferState) (ws : List String) (B : Nat)
    (att1 : Nat → List (List CBEvent)) (k : String)
    (hB : 0 < B) (hnd : ws.Nodup) (hk : k ∈ ws)
    (hv : ∀ r ∈ getResultsBatches ws.length B, ∀ evs ∈ att1 r.1,
      validEvents ((ws.drop r.1).take (r.2 - r.1)) evs)
    (hd : k ∉ d.keysWithError) :
    (k ∈ (workerRun d ws B att1).keysWithError ∧
      alookup (workerRun d ws B att1).missingFromSource k = alookup d.missingFromSource k ∧
      alookup (workerRun d ws B att1).missingFromTarget k = alookup d.missingFromTarget k ∧
      alookup (workerRun d ws B att1).diff k = alookup d.diff k ∧
      alookup (workerStateOf ws B att1).sourceResults k = none ∧
      alookup (workerStateOf ws B att1).targetResults k = none)
    ∨ (∃ sr tr : GetResult, sr.Key = k ∧ tr.Key = k ∧
      alookup (workerStateOf ws B att1).sourceResults k = some sr ∧
      alookup (workerStateOf ws B att1).targetResults k = some tr ∧
      k ∉ (workerRun d ws B att1).keysWithError ∧
      alookup (workerRun d ws B att1).missingFromSource k =
        ofirst (classOutMfs (classifyKey sr tr)) (alookup d.missingFromSource k) ∧
      alookup (workerRun d ws B att1).missingFromTarget k =
        ofirst (classOutMft (classifyKey sr tr)) (alookup d.missingFromTarget k) ∧
      alookup (workerRun d ws B att1).diff k =
        ofirst (classOutDiff (classifyKey sr tr)) (alookup d.diff k)) := by
  have hsndeq := getResults_snd_eq_workerStateOf d ws B att1
  obtain ⟨hg1, hg2, hg3⟩ := foldRanges_globals ws att1 (getResultsBatches ws.length B)
    (d, initialWorkerState)
  obtain ⟨hnds, hndt⟩ := workerStateOf_nodup ws B att1
  rcases getResults_key_fate ws B att1 k d hB hnd hk hv hd with hfail | hsucc
  · left
    obtain ⟨hkwe, hs, ht⟩ := hfail
    rw [hsndeq] at hs ht
    obtain ⟨hw1, hw2, hw3⟩ := diffWorker_lookup_of_not_mem
      (getResults d initialWorkerState ws B att1).2.sourceResults
      (getResults d initialWorkerState ws B att1).2.targetResults k
      (by rw [hsndeq]; exact hs)
    obtain ⟨hwd1, hwd2, hwd3⟩ := nodup_akeys_diffWorker
      (getResults d initialWorkerState ws B att1).2.sourceResults
      (getResults d initialWorkerState ws B att1).2.targetResults
    refine ⟨hkwe, ?_, ?_, ?_, hs, ht⟩
    · show alookup (addDiff (getResults d initialWorkerState ws B att1).1
        (diffWorker _ _)).missingFromSource k = _
      rw [addDiff_lookup_mfs _ _ k hwd1, hw1]
      show alookup (getResults d initialWorkerState ws B att1).1.missingFromSource k = _
      unfold getResults
      rw [hg1]
    · show alookup (addDiff (getResults d initialWorkerState ws B att1).1
        (diffWorker _ _)).missingFromTarget k = _
      rw [addDiff_lookup_mft _ _ k hwd2, hw2]
      show alookup (getResults d initialWorkerState ws B att1).1.missingFromTarget k = _
      unfold getResults
      rw [hg2]
    · show alookup (addDiff (getResults d initialWorkerState ws B att1).1
        (diffWorker _ _)).diff k = _
      rw [addDiff_lookup_diff _ _ k hwd3, hw3]
      show alookup (getResults d initialWorkerState ws B att1).1.diff k = _
      unfold getResults
      rw [hg3]
  · right
    obtain ⟨hkwe, ⟨rsv, esv, hs⟩, ⟨rtv, etv, ht⟩⟩ := hsucc
    obtain ⟨hw1, hw2, hw3⟩ := diffWorker_lookup_of_mem
      (getResults d initialWorkerState ws B att1).2.sourceResults
      (getResults d initialWorkerState ws B att1).2.targetResults k
      ⟨k, rsv, esv⟩ ⟨k, rtv, etv⟩
      (by rw [hsndeq]; exact hnds) hs ht
    obtain ⟨hwd1, hwd2, hwd3⟩ := nodup_akeys_diffWorker
      (getResults d initialWorkerState ws B att1).2.sourceResults
      (getResults d initialWorkerState ws B att1).2.targetResults
    refine ⟨⟨k, rsv, esv⟩, ⟨k, rtv, etv⟩, rfl, rfl, ?_, ?_, hkwe, ?_, ?_, ?_⟩
    · rw [← hsndeq]
      exact hs
    · rw [← hsndeq]
      exact ht
    · show alookup (addDiff (getResults d initialWorkerState ws B att1).1
        (diffWorker _ _)).missingFromSource k = _
      rw [addDiff_lookup_mfs _ _ k hwd1, hw1]
      cases classOutMfs (classifyKey ⟨k, rsv, esv⟩ ⟨k, rtv, etv⟩) with
      | some v => rfl
      | none =>
        show alookup (getResults d initialWorkerState ws B att1).1.missingFromSource k = _
        unfold getResults
        rw [hg1]
        rfl
    · show alookup (addDiff (getResults d initialWorkerState ws B att1).1
        (diffWorker _ _)).missingFromTarget k = _
      rw [addDiff_lookup_mft _ _ k hwd2, hw2]
      cases classOutMft (classifyKey ⟨k, rsv, esv⟩ ⟨k, rtv, etv⟩) with
      | some v => rfl
      | none =>
        show alookup (getResults d initialWorkerState ws B att1).1.missingFromTarget k = _
        unfold getResults
        rw [hg2]
        rfl
    · show alookup (addDiff (getResults d initialWorkerState ws B att1).1
        (diffWorker _ _)).diff k = _
      rw [addDiff_lookup_diff _ _ k hwd3, hw3]
      cases classOutDiff (classifyKey ⟨k, rsv, esv⟩ ⟨k, rtv, etv⟩) with
      | some v => rfl
      | none =>
        show alookup (getResults d initialWorkerState ws B att1).1.diff k = _
        unfold getResults
        rw [hg3]
        rfl

/-! ### Full-run bucket accounting (claim C1) -/

theorem balanceLoadAux_cover (keys : List String) :
    ∀ W N start, 0 < W →
      ((balanceLoadAux W N start).map
        (fun r => (keys.drop r.1).take (r.2 - r.1))).flatten = (keys.drop start).take N := by
  intro W
  induction W with
  | zero =>
    intro N start h
    exact absurd h (lt_irrefl 0)
  | succ V ih =>
    intro N start _
    rw [balanceLoadAux, List.map_cons, List.flatten_cons]
    cases V with
    | zero =>
      rw [balanceLoadAux]
      simp only [List.map_nil, List.flatten_nil, List.append_nil]
      show (keys.drop start).take (start + (N + 0) / (0 + 1) - start) = (keys.drop start).take N
      have harith : start + (N + 0) / (0 + 1) - start = N := by
        simp only [Nat.add_zero, Nat.zero_add, Nat.div_one]
        omega
      rw [harith]
    | succ V' =>
      rw [ih (N - (N + (V' + 1)) / (V' + 1 + 1)) (start + (N + (V' + 1)) / (V' + 1 + 1))
        (by omega)]
      show (keys.drop start).take (start + (N + (V' + 1)) / (V' + 1 + 1) - start) ++
          (keys.drop (start + (N + (V' + 1)) / (V' + 1 + 1))).take
            (N - (N + (V' + 1)) / (V' + 1 + 1)) = (keys.drop start).take N
      have hc : (N + (V' + 1)) / (V' + 1 + 1) ≤ N := balanceLoad_ceil_le N (V' + 1)
      generalize (N + (V' + 1)) / (V' + 1 + 1) = c at hc ⊢
      rw [show start + c - start = c by omega]
      have hdd : keys.drop (start + c) = (keys.drop start).drop c := by
        rw [List.drop_drop, Nat.add_comm]
      rw [hdd, ← List.take_add, show c + (N - c) = N by omega]

theorem workersFold_preserve (keys : List String) (B : Nat)
    (att : Nat → Nat → List (List CBEvent)) (k : String) :
    ∀ rs : List (Nat × Nat), ∀ d : DifferState,
      (∀ r ∈ rs, k ∉ (keys.drop r.1).take (r.2 - r.1)) →
      ((k ∈ (rs.foldl (fun d r => if r.1 = r.2 then d
            else workerRun d ((keys.drop r.1).take (r.2 - r.1)) B (att r.1))
            d).keysWithError ↔ k ∈ d.keysWithError) ∧
        alookup (rs.foldl (fun d r => if r.1 = r.2 then d
            else workerRun d ((keys.drop r.1).take (r.2 - r.1)) B (att r.1))
            d).missingFromSource k = alookup d.missingFromSource k ∧
        alookup (rs.foldl (fun d r => if r.1 = r.2 then d
            else workerRun d ((keys.drop r.1).take (r.2 - r.1)) B (att r.1))
            d).missingFromTarget k = alookup d.missingFromTarget k ∧
        alookup (rs.foldl (fun d r => if r.1 = r.2 then d
            else workerRun d ((keys.drop r.1).take (r.2 - r.1)) B (att r.1))
            d).diff k = alookup d.diff k) := by
  intro rs
  induction rs with
  | nil => intro d _; exact ⟨Iff.rfl, rfl, rfl, rfl⟩
  | cons r rs' ih =>
    intro d h
    rw [List.foldl_cons]
    by_cases hskip : r.1 = r.2
    · rw [if_pos hskip]
      exact ih d (fun r' hr' => h r' (List.mem_cons_of_mem r hr'))
    · rw [if_neg hskip]
      obtain ⟨ha, hb, hc, hd'⟩ :=
        ih (workerRun d ((keys.drop r.1).take (r.2 - r.1)) B (att r.1))
          (fun r' hr' => h r' (List.mem_cons_of_mem r hr'))
      obtain ⟨ha', hb', hc', hd''⟩ := workerRun_preserve d ((keys.drop r.1).take (r.2 - r.1))
        B (att r.1) k (h r (List.mem_cons_self r rs'))
      exact ⟨ha.trans ha', hb.trans hb', hc.trans hc', hd'.trans hd''⟩

/-- Worker `r` owns key `k` and dropped it as a `Match`: both its entries
completed and the comparator classified them equal. -/
def workerMatched (keys : List String) (B : Nat) (att1 : Nat → List (List CBEvent))
    (r : Nat × Nat) (k : String) : Bool :=
  decide (k ∈ (keys.drop r.1).take (r.2 - r.1)) &&
    match alookup (workerStateOf ((keys.drop r.1).take (r.2 - r.1)) B att1).sourceResults k,
        alookup (workerStateOf ((keys.drop r.1).take (r.2 - r.1)) B att1).targetResults k with
    | some sr, some tr => decide (classifyKey sr tr = .matched)
    | _, _ => false

/-- Some worker dropped candidate key `k` as a `Match`.  (`Match` keys appear
in no final mapping, so this bucket is recomputed from the key's worker's
own result maps.) -/
def matchedInRun (keys : List String) (W B : Nat)
    (att : Nat → Nat → List (List CBEvent)) (k : String) : Bool :=
  (balanceLoad W keys.length).any (fun r => workerMatched keys B (att r.1) r k)

theorem workerMatched_of_not_mem (keys : List String) (B : Nat)
    (att1 : Nat → List (List CBEvent)) (r : Nat × Nat) (k : String)
    (h : k ∉ (keys.drop r.1).take (r.2 - r.1)) :
    workerMatched keys B att1 r k = false := by
  unfold workerMatched
  simp [h]

/-- The five buckets of claim C1 for one candidate key after a full run:
member of the global error-key list, present in one of the three global diff
mappings, or dropped as a `Match` by its worker. -/
def keyBuckets (keys : List String) (W B : Nat)
    (att : Nat → Nat → List (List CBEvent)) (k : String) : List Bool :=
  [decide (k ∈ (differRun keys W B att).keysWithError),
    (alookup (differRun keys W B att).missingFromSource k).isSome,
    (alookup (differRun keys W B att).missingFromTarget k).isSome,
    (alookup (differRun keys W B att).diff k).isSome,
    matchedInRun keys W B att k]

/-- The asynchronous client's contract over a whole run: in every batch
attempt of every worker, callbacks fire at most once per key per side and
only for that batch's keys. -/
def validAttempts (keys : List String) (W B : Nat)
    (att : Nat → Nat → List (List CBEvent)) : Prop :=
  ∀ r ∈ balanceLoad W keys.length,
    ∀ br ∈ getResultsBatches ((keys.drop r.1).take (r.2 - r.1)).length B,
      ∀ evs ∈ att r.1 br.1,
        validEvents ((((keys.drop r.1).take (r.2 - r.1)).drop br.1).take (br.2 - br.1)) evs

instance validAttemptsDecidable (keys : List String) (W B : Nat)
    (att : Nat → Nat → List (List CBEvent)) : Decidable (validAttempts keys W B att) := by
  unfold validAttempts
  infer_instance

theorem matchedInRun_split (keys : List String) (W B : Nat)
    (att : Nat → Nat → List (List CBEvent)) (k : String)
    (rs₁ : List (Nat × Nat)) (r : Nat × Nat) (rs₂ : List (Nat × Nat))
    (heq : balanceLoad W keys.length = rs₁ ++ r :: rs₂)
    (hn1 : ∀ q ∈ rs₁, k ∉ (keys.drop q.1).take (q.2 - q.1))
    (hn2 : ∀ q ∈ rs₂, k ∉ (keys.drop q.1).take (q.2 - q.1)) :
    matchedInRun keys W B att k = workerMatched keys B (att r.1) r k := by
  unfold matchedInRun
  rw [heq, List.any_append, List.any_cons]
  have hA1 : (rs₁.any fun q => workerMatched keys B (att q.1) q k) = false := by
    rw [List.any_eq_false]
    intro q hq
    rw [workerMatched_of_not_mem keys B (att q.1) q k (hn1 q hq)]
    simp
  have hA2 : (rs₂.any fun q => workerMatched keys B (att q.1) q k) = false := by
    rw [List.any_eq_false]
    intro q hq
    rw [workerMatched_of_not_mem keys B (att q.1) q k (hn2 q hq)]
    simp
  rw [hA1, hA2]
  simp

/-! ### The full run over the fine-grained callback model

The retry, worker and run layers below repeat the chain
`sendBatchWithRetry` → `getResults` → `workerRun` → `differRun` with
`batchSendSteps` in place of `batchSend`, so that the final bucket
accounting sees the increment-before-write window of `getCallbackFunc`. -/

theorem runBatchSteps_akeys_src (keys : List String) (steps : List CBStep) :
    akeys (runBatchSteps keys steps).sourceResults = keys := by
  rw [(runBatchSteps_maps keys steps).1]
  exact runBatch_akeys_src keys (writesOf steps)

theorem runBatchSteps_akeys_tgt (keys : List String) (steps : List CBStep) :
    akeys (runBatchSteps keys steps).targetResults = keys := by
  rw [(runBatchSteps_maps keys steps).2]
  exact runBatch_akeys_tgt keys (writesOf steps)

/-- A source entry whose callback's write did not execute is still the
placeholder. -/
theorem runBatchSteps_unwritten_src (keys : List String) (steps : List CBStep) (k : String)
    (hk : k ∈ keys) (hw : k ∉ srcWriteKeys steps) :
    alookup (runBatchSteps keys steps).sourceResults k = some emptyGetResult := by
  rw [(runBatchSteps_maps keys steps).1]
  rw [runBatch]
  rw [foldl_applyCallback_lookup_src_frozen (writesOf steps) (NewBatch keys) k
    (fun ev hm hs hkey =>
      hw (List.mem_map.mpr ⟨ev, List.mem_filter.mpr ⟨hm, by simpa using hs⟩, hkey⟩))]
  exact alookup_map_placeholder keys k hk

/-- A target entry whose callback's write did not execute is still the
placeholder. -/
theorem runBatchSteps_unwritten_tgt (keys : List String) (steps : List CBStep) (k : String)
    (hk : k ∈ keys) (hw : k ∉ tgtWriteKeys steps) :
    alookup (runBatchSteps keys steps).targetResults k = some emptyGetResult := by
  rw [(runBatchSteps_maps keys steps).2]
  rw [runBatch]
  rw [foldl_applyCallback_lookup_tgt_frozen (writesOf steps) (NewBatch keys) k
    (fun ev hm hs hkey =>
      hw (List.mem_map.mpr ⟨ev, List.mem_filter.mpr ⟨hm, by simp [hs]⟩, hkey⟩))]
  exact alookup_map_placeholder keys k hk

/-- `sendBatchFunc` under the retry driver (see `firstSuccessfulBatch`),
over fine-grained callback actions: each attempt evaluates `batchSendSteps`
on a brand-new batch and the first success wins. -/
def firstSuccessfulBatchSteps (keys : List String) : List (List CBStep) → Option BatchState
  | [] => none
  | st :: rest =>
    match batchSendSteps keys st with
    | .ok b => some b
    | .error _ => firstSuccessfulBatchSteps keys rest

theorem batchSendSteps_ok_eq (keys : List String) (st : List CBStep) (b : BatchState)
    (h : batchSendSteps keys st = .ok b) : b = runBatchSteps keys st := by
  unfold batchSendSteps at h
  split at h
  · exact (Except.ok.inj h).symm
  · exact Except.noConfusion h

theorem batchSendSteps_ok_counts (keys : List String) (st : List CBStep) (b : BatchState)
    (h : batchSendSteps keys st = .ok b) :
    (incKeys st true).length = keys.length ∧ (incKeys st false).length = keys.length := by
  by_cases hc : (incKeys st true).length = keys.length ∧
      (incKeys st false).length = keys.length
  · exact hc
  · rw [batchSendSteps, if_neg hc] at h
    exact Except.noConfusion h

theorem firstSuccessfulBatchSteps_eq_some (bk : List String)
    (attempts : List (List CBStep)) (b : BatchState)
    (h : firstSuccessfulBatchSteps bk attempts = some b) :
    ∃ st ∈ attempts, batchSendSteps bk st = .ok b ∧ b = runBatchSteps bk st := by
  induction attempts with
  | nil => simp [firstSuccessfulBatchSteps] at h
  | cons st rest ih =>
    rw [firstSuccessfulBatchSteps] at h
    cases hs : batchSendSteps bk st with
    | ok b' =>
      rw [hs] at h
      simp only [Option.some.injEq] at h
      subst h
      exact ⟨st, List.mem_cons_self st rest, hs, batchSendSteps_ok_eq bk st b' hs⟩
    | error msg =>
      rw [hs] at h
      obtain ⟨st', hmem, hok, hrb⟩ := ih h
      exact ⟨st', List.mem_cons_of_mem st hmem, hok, hrb⟩

/-- `DifferWorker.sendBatchWithRetry` (mutationDiffer.go:370-389) over
fine-grained callback actions (see `sendBatchWithRetry`). -/
def sendBatchWithRetrySteps (d : DifferState) (w : WorkerState) (keys : List String)
    (startIndex endIndex : Nat) (attempts : List (List CBStep)) :
    DifferState × WorkerState :=
  match firstSuccessfulBatchSteps ((keys.drop startIndex).take (endIndex - startIndex))
      attempts with
  | some b =>
    ({ d with numKeysProcessed := uint32Mod (d.numKeysProcessed + (endIndex - startIndex)) },
      mergeResults w b)
  | none =>
    ({ addKeysWithError d ((keys.drop startIndex).take (endIndex - startIndex)) with
        numKeysProcessed := uint32Mod (d.numKeysProcessed + (endIndex - startIndex)) },
      w)

theorem sendBatchWithRetrySteps_globals (d : DifferState) (w : WorkerState)
    (keys : List String) (s e : Nat) (attempts : List (List CBStep)) :
    (sendBatchWithRetrySteps d w keys s e attempts).1.missingFromSource =
        d.missingFromSource ∧
      (sendBatchWithRetrySteps d w keys s e attempts).1.missingFromTarget =
        d.missingFromTarget ∧
      (sendBatchWithRetrySteps d w keys s e attempts).1.diff = d.diff := by
  unfold sendBatchWithRetrySteps
  cases firstSuccessfulBatchSteps ((keys.drop s).take (e - s)) attempts <;>
    exact ⟨rfl, rfl, rfl⟩

theorem sendBatchWithRetrySteps_preserve (d : DifferState) (w : WorkerState)
    (keys : List String) (s e : Nat) (attempts : List (List CBStep)) (k : String)
    (hk : k ∉ (keys.drop s).take (e - s)) :
    (k ∈ (sendBatchWithRetrySteps d w keys s e attempts).1.keysWithError ↔
        k ∈ d.keysWithError) ∧
      alookup (sendBatchWithRetrySteps d w keys s e attempts).2.sourceResults k =
        alookup w.sourceResults k ∧
      alookup (sendBatchWithRetrySteps d w keys s e attempts).2.targetResults k =
        alookup w.targetResults k := by
  unfold sendBatchWithRetrySteps
  cases hfs : firstSuccessfulBatchSteps ((keys.drop s).take (e - s)) attempts with
  | none =>
    refine ⟨?_, rfl, rfl⟩
    show k ∈ d.keysWithError ++ (keys.drop s).take (e - s) ↔ k ∈ d.keysWithError
    rw [List.mem_append]
    exact ⟨fun h => h.elim id (fun h' => absurd h' hk), Or.inl⟩
  | some b =>
    obtain ⟨st, hmem, hok, hrb⟩ := firstSuccessfulBatchSteps_eq_some _ _ b hfs
    have haks : akeys b.sourceResults = (keys.drop s).take (e - s) := by
      rw [hrb]
      exact runBatchSteps_akeys_src _ _
    have hakt : akeys b.targetResults = (keys.drop s).take (e - s) := by
      rw [hrb]
      exact runBatchSteps_akeys_tgt _ _
    refine ⟨Iff.rfl, ?_, ?_⟩
    · show alookup (mergeResults w b).sourceResults k = alookup w.sourceResults k
      unfold mergeResults
      apply foldl_upsert_lookup_none
      rw [alookup_eq_none_iff, haks]
      exact hk
    · show alookup (mergeResults w b).targetResults k = alookup w.targetResults k
      unfold mergeResults
      apply foldl_upsert_lookup_none
      rw [alookup_eq_none_iff, hakt]
      exact hk

/-- One retried batch and one of its keys, over the fine model: either every
attempt failed (the key joins the error list, the worker maps untouched), or
the first successful attempt's entry for the key — the placeholder if its
callback's write had not executed, the written key/payload otherwise — was
merged into each side's worker map; the written form is guaranteed when no
counted callback of a winning attempt was preempted before its write. -/
theorem sendBatchWithRetrySteps_key_fate (d : DifferState) (w : WorkerState)
    (keys : List String) (s e : Nat) (attempts : List (List CBStep)) (k : String)
    (hk : k ∈ (keys.drop s).take (e - s))
    (hnd : ((keys.drop s).take (e - s)).Nodup)
    (hv : ∀ st ∈ attempts, validSteps ((keys.drop s).take (e - s)) st) :
    ((sendBatchWithRetrySteps d w keys s e attempts).1.keysWithError =
        d.keysWithError ++ (keys.drop s).take (e - s) ∧
      (sendBatchWithRetrySteps d w keys s e attempts).2 = w)
    ∨ ((sendBatchWithRetrySteps d w keys s e attempts).1.keysWithError = d.keysWithError ∧
      ∃ sr tr : GetResult,
        alookup (sendBatchWithRetrySteps d w keys s e attempts).2.sourceResults k =
          some sr ∧
        alookup (sendBatchWithRetrySteps d w keys s e attempts).2.targetResults k =
          some tr ∧
        (sr = emptyGetResult ∨ sr.Key = k) ∧ (tr = emptyGetResult ∨ tr.Key = k) ∧
        ((∀ st ∈ attempts, writeComplete st) → sr.Key = k ∧ tr.Key = k)) := by
  unfold sendBatchWithRetrySteps
  cases hfs : firstSuccessfulBatchSteps ((keys.drop s).take (e - s)) attempts with
  | none => exact Or.inl ⟨rfl, rfl⟩
  | some b =>
    right
    obtain ⟨st, hmem, hok, hrb⟩ := firstSuccessfulBatchSteps_eq_some _ _ b hfs
    obtain ⟨hind1, hind2, hisub1, hisub2, hvw, hwi1, hwi2, hgate⟩ := hv st hmem
    obtain ⟨hwnd1, hwnd2, hwsub⟩ := hvw
    obtain ⟨hcs, hct⟩ := batchSendSteps_ok_counts _ _ _ hok
    have hkinc1 : k ∈ incKeys st true :=
      incKeys_cover _ st true hnd hind1 hisub1 hcs k hk
    have hkinc2 : k ∈ incKeys st false :=
      incKeys_cover _ st false hnd hind2 hisub2 hct k hk
    have hbs : ∃ sr : GetResult,
        alookup b.sourceResults k = some sr ∧ (sr = emptyGetResult ∨ sr.Key = k) ∧
          (k ∈ srcWriteKeys st → sr.Key = k) := by
      by_cases hw1 : k ∈ srcWriteKeys st
      · obtain ⟨r1, e1, hl⟩ := runBatchSteps_written_src _ st k hk hwnd1 hw1
        exact ⟨⟨k, r1, e1⟩, by rw [hrb]; exact hl, Or.inr rfl, fun _ => rfl⟩
      · exact ⟨emptyGetResult,
          by rw [hrb]; exact runBatchSteps_unwritten_src _ st k hk hw1,
          Or.inl rfl, fun h => absurd h hw1⟩
    have hbt : ∃ tr : GetResult,
        alookup b.targetResults k = some tr ∧ (tr = emptyGetResult ∨ tr.Key = k) ∧
          (k ∈ tgtWriteKeys st → tr.Key = k) := by
      by_cases hw2 : k ∈ tgtWriteKeys st
      · obtain ⟨r2, e2, hl⟩ := runBatchSteps_written_tgt _ st k hk hwnd2 hw2
        exact ⟨⟨k, r2, e2⟩, by rw [hrb]; exact hl, Or.inr rfl, fun _ => rfl⟩
      · exact ⟨emptyGetResult,
          by rw [hrb]; exact runBatchSteps_unwritten_tgt _ st k hk hw2,
          Or.inl rfl, fun h => absurd h hw2⟩
    obtain ⟨sr, hbsl, hbsd, hbsw⟩ := hbs
    obtain ⟨tr, hbtl, hbtd, hbtw⟩ := hbt
    have haks : akeys b.sourceResults = (keys.drop s).take (e - s) := by
      rw [hrb]
      exact runBatchSteps_akeys_src _ _
    have hakt : akeys b.targetResults = (keys.drop s).take (e - s) := by
      rw [hrb]
      exact runBatchSteps_akeys_tgt _ _
    refine ⟨rfl, sr, tr, ?_, ?_, hbsd, hbtd, ?_⟩
    · show alookup (mergeResults w b).sourceResults k = some sr
      unfold mergeResults
      exact foldl_upsert_lookup_some b.sourceResults k sr (by rw [haks]; exact hnd) hbsl
        w.sourceResults
    · show alookup (mergeResults w b).targetResults k = some tr
      unfold mergeResults
      exact foldl_upsert_lookup_some b.targetResults k tr (by rw [hakt]; exact hnd) hbtl
        w.targetResults
    · intro hwc
      exact ⟨hbsw ((hwc st hmem).1 k hkinc1), hbtw ((hwc st hmem).2 k hkinc2)⟩

/-- `DifferWorker.getResults` (mutationDiffer.go:351-368) over fine-grained
callback actions (see `getResults`). -/
def getResultsSteps (d : DifferState) (w : WorkerState) (keys : List String) (B : Nat)
    (attemptsFor : Nat → List (List CBStep)) : DifferState × WorkerState :=
  (getResultsBatches keys.length B).foldl
    (fun p r => sendBatchWithRetrySteps p.1 p.2 keys r.1 r.2 (attemptsFor r.1)) (d, w)

/-- `DifferWorker.run` (mutationDiffer.go:345-349) over fine-grained
callback actions (see `workerRun`). -/
def workerRunSteps (d : DifferState) (keys : List String) (B : Nat)
    (attemptsFor : Nat → List (List CBStep)) : DifferState :=
  addDiff (getResultsSteps d initialWorkerState keys B attemptsFor).1
    (diffWorker (getResultsSteps d initialWorkerState keys B attemptsFor).2.sourceResults
      (getResultsSteps d initialWorkerState keys B attemptsFor).2.targetResults)

/-- `MutationDiffer.Run` (mutationDiffer.go:108-144) over fine-grained
callback actions (see `differRun`): `att w s` gives worker-`w`'s attempt
actions for its batch starting at `s`. -/
def differRunSteps (keys : List String) (W B : Nat)
    (att : Nat → Nat → List (List CBStep)) : DifferState :=
  (balanceLoad W keys.length).foldl
    (fun d r =>
      if r.1 = r.2 then d
      else workerRunSteps d ((keys.drop r.1).take (r.2 - r.1)) B (att r.1))
    initialDifferState

theorem foldRangesSteps_globals (keys : List String) (att1 : Nat → List (List CBStep)) :
    ∀ rs : List (Nat × Nat), ∀ p : DifferState × WorkerState,
      ((rs.foldl (fun p r => sendBatchWithRetrySteps p.1 p.2 keys r.1 r.2 (att1 r.1))
            p).1.missingFromSource = p.1.missingFromSource) ∧
        ((rs.foldl (fun p r => sendBatchWithRetrySteps p.1 p.2 keys r.1 r.2 (att1 r.1))
            p).1.missingFromTarget = p.1.missingFromTarget) ∧
        (rs.foldl (fun p r => sendBatchWithRetrySteps p.1 p.2 keys r.1 r.2 (att1 r.1))
            p).1.diff = p.1.diff := by
  intro rs
  induction rs with
  | nil => intro p; exact ⟨rfl, rfl, rfl⟩
  | cons r rs' ih =>
    intro p
    rw [List.foldl_cons]
    obtain ⟨ha, hb, hc⟩ := ih (sendBatchWithRetrySteps p.1 p.2 keys r.1 r.2 (att1 r.1))
    obtain ⟨ha', hb', hc'⟩ := sendBatchWithRetrySteps_globals p.1 p.2 keys r.1 r.2 (att1 r.1)
    exact ⟨ha.trans ha', hb.trans hb', hc.trans hc'⟩

theorem foldRangesSteps_preserve (keys : List String) (att1 : Nat → List (List CBStep))
    (k : String) :
    ∀ rs : List (Nat × Nat), ∀ p : DifferState × WorkerState,
      (∀ r ∈ rs, k ∉ (keys.drop r.1).take (r.2 - r.1)) →
      ((k ∈ (rs.foldl (fun p r => sendBatchWithRetrySteps p.1 p.2 keys r.1 r.2 (att1 r.1))
            p).1.keysWithError ↔ k ∈ p.1.keysWithError) ∧
        alookup (rs.foldl (fun p r => sendBatchWithRetrySteps p.1 p.2 keys r.1 r.2 (att1 r.1))
            p).2.sourceResults k = alookup p.2.sourceResults k ∧
        alookup (rs.foldl (fun p r => sendBatchWithRetrySteps p.1 p.2 keys r.1 r.2 (att1 r.1))
            p).2.targetResults k = alookup p.2.targetResults k) := by
  intro rs
  induction rs with
  | nil => intro p _; exact ⟨Iff.rfl, rfl, rfl⟩
  | cons r rs' ih =>
    intro p h
    rw [List.foldl_cons]
    obtain ⟨ha, hb, hc⟩ := ih (sendBatchWithRetrySteps p.1 p.2 keys r.1 r.2 (att1 r.1))
      (fun r' hr' => h r' (List.mem_cons_of_mem r hr'))
    obtain ⟨ha', hb', hc'⟩ := sendBatchWithRetrySteps_preserve p.1 p.2 keys r.1 r.2
      (att1 r.1) k (h r (List.mem_cons_self r rs'))
    exact ⟨ha.trans ha', hb.trans hb', hc.trans hc'⟩

theorem sendBatchWithRetrySteps_snd (d d' : DifferState) (w : WorkerState)
    (keys : List String) (s e : Nat) (attempts : List (List CBStep)) :
    (sendBatchWithRetrySteps d w keys s e attempts).2 =
      (sendBatchWithRetrySteps d' w keys s e attempts).2 := by
  unfold sendBatchWithRetrySteps
  cases firstSuccessfulBatchSteps ((keys.drop s).take (e - s)) attempts <;> rfl

theorem foldRangesSteps_snd_indep (keys : List String) (att1 : Nat → List (List CBStep)) :
    ∀ rs : List (Nat × Nat), ∀ d d' : DifferState, ∀ w : WorkerState,
      (rs.foldl (fun p r => sendBatchWithRetrySteps p.1 p.2 keys r.1 r.2 (att1 r.1))
          (d, w)).2 =
        (rs.foldl (fun p r => sendBatchWithRetrySteps p.1 p.2 keys r.1 r.2 (att1 r.1))
          (d', w)).2 := by
  intro rs
  induction rs with
  | nil => intro d d' w; rfl
  | cons r rs' ih =>
    intro d d' w
    rw [List.foldl_cons, List.foldl_cons]
    have hsnd := sendBatchWithRetrySteps_snd d d' w keys r.1 r.2 (att1 r.1)
    have hpair : sendBatchWithRetrySteps d w keys r.1 r.2 (att1 r.1) =
        ((sendBatchWithRetrySteps d w keys r.1 r.2 (att1 r.1)).1,
          (sendBatchWithRetrySteps d' w keys r.1 r.2 (att1 r.1)).2) := by
      rw [← hsnd]
    rw [hpair]
    exact ih (sendBatchWithRetrySteps d w keys r.1 r.2 (att1 r.1)).1
      (sendBatchWithRetrySteps d' w keys r.1 r.2 (att1 r.1)).1
      (sendBatchWithRetrySteps d' w keys r.1 r.2 (att1 r.1)).2

theorem sendBatchWithRetrySteps_nodup (d : DifferState) (w : WorkerState)
    (keys : List String) (s e : Nat) (attempts : List (List CBStep))
    (h1 : (akeys w.sourceResults).Nodup) (h2 : (akeys w.targetResults).Nodup) :
    (akeys (sendBatchWithRetrySteps d w keys s e attempts).2.sourceResults).Nodup ∧
      (akeys (sendBatchWithRetrySteps d w keys s e attempts).2.targetResults).Nodup := by
  unfold sendBatchWithRetrySteps
  cases firstSuccessfulBatchSteps ((keys.drop s).take (e - s)) attempts with
  | none => exact ⟨h1, h2⟩
  | some b =>
    exact ⟨nodup_akeys_foldl_upsert b.sourceResults w.sourceResults h1,
      nodup_akeys_foldl_upsert b.targetResults w.targetResults h2⟩

theorem foldRangesSteps_nodup (keys : List String) (att1 : Nat → List (List CBStep)) :
    ∀ rs : List (Nat × Nat), ∀ p : DifferState × WorkerState,
      (akeys p.2.sourceResults).Nodup → (akeys p.2.targetResults).Nodup →
      (akeys (rs.foldl (fun p r => sendBatchWithRetrySteps p.1 p.2 keys r.1 r.2 (att1 r.1))
          p).2.sourceResults).Nodup ∧
        (akeys (rs.foldl (fun p r => sendBatchWithRetrySteps p.1 p.2 keys r.1 r.2 (att1 r.1))
          p).2.targetResults).Nodup := by
  intro rs
  induction rs with
  | nil => intro p h1 h2; exact ⟨h1, h2⟩
  | cons r rs' ih =>
    intro p h1 h2
    rw [List.foldl_cons]
    obtain ⟨h1', h2'⟩ := sendBatchWithRetrySteps_nodup p.1 p.2 keys r.1 r.2 (att1 r.1) h1 h2
    exact ih _ h1' h2'

theorem getResultsSteps_key_fate (ws : List String) (B : Nat)
    (att1 : Nat → List (List CBStep)) (k : String) (d : DifferState)
    (hB : 0 < B) (hnd : ws.Nodup) (hk : k ∈ ws)
    (hv : ∀ r ∈ getResultsBatches ws.length B, ∀ st ∈ att1 r.1,
      validSteps ((ws.drop r.1).take (r.2 - r.1)) st)
    (hd : k ∉ d.keysWithError) :
    (k ∈ (getResultsSteps d initialWorkerState ws B att1).1.keysWithError ∧
      alookup (getResultsSteps d initialWorkerState ws B att1).2.sourceResults k = none ∧
      alookup (getResultsSteps d initialWorkerState ws B att1).2.targetResults k = none)
    ∨ (k ∉ (getResultsSteps d initialWorkerState ws B att1).1.keysWithError ∧
      ∃ sr tr : GetResult,
        alookup (getResultsSteps d initialWorkerState ws B att1).2.sourceResults k =
          some sr ∧
        alookup (getResultsSteps d initialWorkerState ws B att1).2.targetResults k =
          some tr ∧
        (sr = emptyGetResult ∨ sr.Key = k) ∧ (tr = emptyGetResult ∨ tr.Key = k) ∧
        ((∀ q ∈ getResultsBatches ws.length B, ∀ st ∈ att1 q.1, writeComplete st) →
          sr.Key = k ∧ tr.Key = k)) := by
  have hflat : ((getResultsBatches ws.length B).map
      (fun r => (ws.drop r.1).take (r.2 - r.1))).flatten = ws := by
    simpa [getResultsBatches] using
      batchRanges_join_slices ws ws.length ws.length B 0 rfl hB (by omega)
  have hcount : ((getResultsBatches ws.length B).map
      (fun r => (ws.drop r.1).take (r.2 - r.1))).flatten.count k = 1 := by
    rw [hflat]
    exact List.count_eq_one_of_mem hnd hk
  obtain ⟨rs₁, r, rs₂, heq, hkr, hn1, hn2⟩ :=
    exists_unique_split (fun (q : Nat × Nat) => (ws.drop q.1).take (q.2 - q.1)) k _ hcount
  unfold getResultsSteps
  rw [heq, List.foldl_append, List.foldl_cons]
  obtain ⟨hq1e, hq1s, hq1t⟩ :=
    foldRangesSteps_preserve ws att1 k rs₁ (d, initialWorkerState) hn1
  have hndsl : ((ws.drop r.1).take (r.2 - r.1)).Nodup :=
    ((List.take_sublist _ _).trans (List.drop_sublist _ _)).nodup hnd
  have hrmem : r ∈ getResultsBatches ws.length B := by
    rw [heq]
    exact List.mem_append_right _ (List.mem_cons_self r rs₂)
  have hvr := hv r hrmem
  rcases sendBatchWithRetrySteps_key_fate
      (rs₁.foldl (fun (p : DifferState × WorkerState) (q : Nat × Nat) =>
          sendBatchWithRetrySteps p.1 p.2 ws q.1 q.2 (att1 q.1))
        (d, initialWorkerState)).1
      (rs₁.foldl (fun (p : DifferState × WorkerState) (q : Nat × Nat) =>
          sendBatchWithRetrySteps p.1 p.2 ws q.1 q.2 (att1 q.1))
        (d, initialWorkerState)).2
      ws r.1 r.2 (att1 r.1) k hkr hndsl hvr with hfail | hsucc
  · left
    obtain ⟨hkwe, hwid⟩ := hfail
    obtain ⟨hfe, hfs, hft⟩ := foldRangesSteps_preserve ws att1 k rs₂ _ hn2
    refine ⟨?_, ?_, ?_⟩
    · exact hfe.mpr (hkwe ▸ List.mem_append_right _ hkr)
    · rw [hfs, hwid, hq1s]
      rfl
    · rw [hft, hwid, hq1t]
      rfl
  · right
    obtain ⟨hkwe, sr, tr, hls, hlt, hds, hdt, himp⟩ := hsucc
    obtain ⟨hfe, hfs, hft⟩ := foldRangesSteps_preserve ws att1 k rs₂ _ hn2
    refine ⟨?_, sr, tr, ?_, ?_, hds, hdt, ?_⟩
    · intro hmem'
      have h' := hfe.mp hmem'
      rw [hkwe] at h'
      exact hd (hq1e.mp h')
    · rw [hfs]
      exact hls
    · rw [hft]
      exact hlt
    · intro hwc
      exact himp (hwc r (List.mem_append_right _ (List.mem_cons_self r rs₂)))

/-- The worker's result maps after its batch loop over fine-grained actions
(see `workerStateOf`). -/
def workerStateOfSteps (ws : List String) (B : Nat)
    (att1 : Nat → List (List CBStep)) : WorkerState :=
  (getResultsSteps initialDifferState initialWorkerState ws B att1).2

theorem getResultsSteps_snd_eq_workerStateOfSteps (d : DifferState) (ws : List String)
    (B : Nat) (att1 : Nat → List (List CBStep)) :
    (getResultsSteps d initialWorkerState ws B att1).2 = workerStateOfSteps ws B att1 := by
  unfold getResultsSteps workerStateOfSteps getResultsSteps
  exact foldRangesSteps_snd_indep ws att1 (getResultsBatches ws.length B) d
    initialDifferState initialWorkerState

theorem workerStateOfSteps_nodup (ws : List String) (B : Nat)
    (att1 : Nat → List (List CBStep)) :
    (akeys (workerStateOfSteps ws B att1).sourceResults).Nodup ∧
      (akeys (workerStateOfSteps ws B att1).targetResults).Nodup := by
  unfold workerStateOfSteps getResultsSteps
  exact foldRangesSteps_nodup ws att1 (getResultsBatches ws.length B)
    (initialDifferState, initialWorkerState) List.nodup_nil List.nodup_nil

theorem workerRunSteps_preserve (d : DifferState) (ws : List String) (B : Nat)
    (att1 : Nat → List (List CBStep)) (k : String) (hk : k ∉ ws) :
    (k ∈ (workerRunSteps d ws B att1).keysWithError ↔ k ∈ d.keysWithError) ∧
      alookup (workerRunSteps d ws B att1).missingFromSource k =
        alookup d.missingFromSource k ∧
      alookup (workerRunSteps d ws B att1).missingFromTarget k =
        alookup d.missingFromTarget k ∧
      alookup (workerRunSteps d ws B att1).diff k = alookup d.diff k := by
  have hslices : ∀ r ∈ getResultsBatches ws.length B,
      k ∉ (ws.drop r.1).take (r.2 - r.1) := by
    intro r hr hmem
    exact hk (((List.take_sublist _ _).trans (List.drop_sublist _ _)).subset hmem)
  obtain ⟨hpe, hps, hpt⟩ := foldRangesSteps_preserve ws att1 k (getResultsBatches ws.length B)
    (d, initialWorkerState) hslices
  obtain ⟨hg1, hg2, hg3⟩ := foldRangesSteps_globals ws att1 (getResultsBatches ws.length B)
    (d, initialWorkerState)
  have hwno : alookup (getResultsSteps d initialWorkerState ws B att1).2.sourceResults k =
      none := hps.trans rfl
  obtain ⟨hw1, hw2, hw3⟩ := diffWorker_lookup_of_not_mem
    (getResultsSteps d initialWorkerState ws B att1).2.sourceResults
    (getResultsSteps d initialWorkerState ws B att1).2.targetResults k hwno
  refine ⟨hpe, ?_, ?_, ?_⟩
  · exact (foldl_upsert_lookup_none _ _ k hw1).trans (by unfold getResultsSteps; rw [hg1])
  · exact (foldl_upsert_lookup_none _ _ k hw2).trans (by unfold getResultsSteps; rw [hg2])
  · exact (foldl_upsert_lookup_none _ _ k hw3).trans (by unfold getResultsSteps; rw [hg3])

/-- The fate of one key `k` owned by a worker over slice `ws`, in the fine
model: either its batch exhausted its retries (`k` in the error list, its
entries absent, the global mappings untouched at `k`), or its batch
succeeded and the comparator classified the merged pair — which holds `k`'s
key and payload on a side only if `k`'s callback write on that side
executed, and otherwise is the empty placeholder. -/
theorem workerRunSteps_key_fate (d : DifferState) (ws : List String) (B : Nat)
    (att1 : Nat → List (List CBStep)) (k : String)
    (hB : 0 < B) (hnd : ws.Nodup) (hk : k ∈ ws)
    (hv : ∀ r ∈ getResultsBatches ws.length B, ∀ st ∈ att1 r.1,
      validSteps ((ws.drop r.1).take (r.2 - r.1)) st)
    (hd : k ∉ d.keysWithError) :
    (k ∈ (workerRunSteps d ws B att1).keysWithError ∧
      alookup (workerRunSteps d ws B att1).missingFromSource k =
        alookup d.missingFromSource k ∧
      alookup (workerRunSteps d ws B att1).missingFromTarget k =
        alookup d.missingFromTarget k ∧
      alookup (workerRunSteps d ws B att1).diff k = alookup d.diff k ∧
      alookup (workerStateOfSteps ws B att1).sourceResults k = none ∧
      alookup (workerStateOfSteps ws B att1).targetResults k = none)
    ∨ (∃ sr tr : GetResult,
      alookup (workerStateOfSteps ws B att1).sourceResults k = some sr ∧
      alookup (workerStateOfSteps ws B att1).targetResults k = some tr ∧
      (sr = emptyGetResult ∨ sr.Key = k) ∧ (tr = emptyGetResult ∨ tr.Key = k) ∧
      ((∀ q ∈ getResultsBatches ws.length B, ∀ st ∈ att1 q.1, writeComplete st) →
        sr.Key = k ∧ tr.Key = k) ∧
      k ∉ (workerRunSteps d ws B att1).keysWithError ∧
      alookup (workerRunSteps d ws B att1).missingFromSource k =
        ofirst (classOutMfs (classifyKey sr tr)) (alookup d.missingFromSource k) ∧
      alookup (workerRunSteps d ws B att1).missingFromTarget k =
        ofirst (classOutMft (classifyKey sr tr)) (alookup d.missingFromTarget k) ∧
      alookup (workerRunSteps d ws B att1).diff k =
        ofirst (classOutDiff (classifyKey sr tr)) (alookup d.diff k)) := by
  have hsndeq := getResultsSteps_snd_eq_workerStateOfSteps d ws B att1
  obtain ⟨hg1, hg2, hg3⟩ := foldRangesSteps_globals ws att1 (getResultsBatches ws.length B)
    (d, initialWorkerState)
  obtain ⟨hnds, hndt⟩ := workerStateOfSteps_nodup ws B att1
  rcases getResultsSteps_key_fate ws B att1 k d hB hnd hk hv hd with hfail | hsucc
  · left
    obtain ⟨hkwe, hs, ht⟩ := hfail
    rw [hsndeq] at hs ht
    obtain ⟨hw1, hw2, hw3⟩ := diffWorker_lookup_of_not_mem
      (getResultsSteps d initialWorkerState ws B att1).2.sourceResults
      (getResultsSteps d initialWorkerState ws B att1).2.targetResults k
      (by rw [hsndeq]; exact hs)
    obtain ⟨hwd1, hwd2, hwd3⟩ := nodup_akeys_diffWorker
      (getResultsSteps d initialWorkerState ws B att1).2.sourceResults
      (getResultsSteps d initialWorkerState ws B att1).2.targetResults
    refine ⟨hkwe, ?_, ?_, ?_, hs, ht⟩
    · show alookup (addDiff (getResultsSteps d initialWorkerState ws B att1).1
        (diffWorker _ _)).missingFromSource k = _
      rw [addDiff_lookup_mfs _ _ k hwd1, hw1]
      show alookup (getResultsSteps d initialWorkerState ws B att1).1.missingFromSource k = _
      unfold getResultsSteps
      rw [hg1]
    · show alookup (addDiff (getResultsSteps d initialWorkerState ws B att1).1
        (diffWorker _ _)).missingFromTarget k = _
      rw [addDiff_lookup_mft _ _ k hwd2, hw2]
      show alookup (getResultsSteps d initialWorkerState ws B att1).1.missingFromTarget k = _
      unfold getResultsSteps
      rw [hg2]
    · show alookup (addDiff (getResultsSteps d initialWorkerState ws B att1).1
        (diffWorker _ _)).diff k = _
      rw [addDiff_lookup_diff _ _ k hwd3, hw3]
      show alookup (getResultsSteps d initialWorkerState ws B att1).1.diff k = _
      unfold getResultsSteps
      rw [hg3]
  · right
    obtain ⟨hkwe, sr, tr, hs, ht, hds, hdt, himp⟩ := hsucc
    obtain ⟨hw1, hw2, hw3⟩ := diffWorker_lookup_of_mem
      (getResultsSteps d initialWorkerState ws B att1).2.sourceResults
      (getResultsSteps d initialWorkerState ws B att1).2.targetResults k sr tr
      (by rw [hsndeq]; exact hnds) hs ht
    obtain ⟨hwd1, hwd2, hwd3⟩ := nodup_akeys_diffWorker
      (getResultsSteps d initialWorkerState ws B att1).2.sourceResults
      (getResultsSteps d initialWorkerState ws B att1).2.targetResults
    refine ⟨sr, tr, ?_, ?_, hds, hdt, himp, hkwe, ?_, ?_, ?_⟩
    · rw [← hsndeq]
      exact hs
    · rw [← hsndeq]
      exact ht
    · show alookup (addDiff (getResultsSteps d initialWorkerState ws B att1).1
        (diffWorker _ _)).missingFromSource k = _
      rw [addDiff_lookup_mfs _ _ k hwd1, hw1]
      cases classOutMfs (classifyKey sr tr) with
      | some v => rfl
      | none =>
        show alookup (getResultsSteps d initialWorkerState ws B att1).1.missingFromSource k = _
        unfold getResultsSteps
        rw [hg1]
        rfl
    · show alookup (addDiff (getResultsSteps d initialWorkerState ws B att1).1
        (diffWorker _ _)).missingFromTarget k = _
      rw [addDiff_lookup_mft _ _ k hwd2, hw2]
      cases classOutMft (classifyKey sr tr) with
      | some v => rfl
      | none =>
        show alookup (getResultsSteps d initialWorkerState ws B att1).1.missingFromTarget k = _
        unfold getResultsSteps
        rw [hg2]
        rfl
    · show alookup (addDiff (getResultsSteps d initialWorkerState ws B att1).1
        (diffWorker _ _)).diff k = _
      rw [addDiff_lookup_diff _ _ k hwd3, hw3]
      cases classOutDiff (classifyKey sr tr) with
      | some v => rfl
      | none =>
        show alookup (getResultsSteps d initialWorkerState ws B att1).1.diff k = _
        unfold getResultsSteps
        rw [hg3]
        rfl

theorem workersFoldSteps_preserve (keys : List String) (B : Nat)
    (att : Nat → Nat → List (List CBStep)) (k : String) :
    ∀ rs : List (Nat × Nat), ∀ d : DifferState,
      (∀ r ∈ rs, k ∉ (keys.drop r.1).take (r.2 - r.1)) →
      ((k ∈ (rs.foldl (fun d r => if r.1 = r.2 then d
            else workerRunSteps d ((keys.drop r.1).take (r.2 - r.1)) B (att r.1))
            d).keysWithError ↔ k ∈ d.keysWithError) ∧
        alookup (rs.foldl (fun d r => if r.1 = r.2 then d
            else workerRunSteps d ((keys.drop r.1).take (r.2 - r.1)) B (att r.1))
            d).missingFromSource k = alookup d.missingFromSource k ∧
        alookup (rs.foldl (fun d r => if r.1 = r.2 then d
            else workerRunSteps d ((keys.drop r.1).take (r.2 - r.1)) B (att r.1))
            d).missingFromTarget k = alookup d.missingFromTarget k ∧
        alookup (rs.foldl (fun d r => if r.1 = r.2 then d
            else workerRunSteps d ((keys.drop r.1).take (r.2 - r.1)) B (att r.1))
            d).diff k = alookup d.diff k) := by
  intro rs
  induction rs with
  | nil => intro d _; exact ⟨Iff.rfl, rfl, rfl, rfl⟩
  | cons r rs' ih =>
    intro d h
    rw [List.foldl_cons]
    by_cases hskip : r.1 = r.2
    · rw [if_pos hskip]
      exact ih d (fun r' hr' => h r' (List.mem_cons_of_mem r hr'))
    · rw [if_neg hskip]
      obtain ⟨ha, hb, hc, hd'⟩ :=
        ih (workerRunSteps d ((keys.drop r.1).take (r.2 - r.1)) B (att r.1))
          (fun r' hr' => h r' (List.mem_cons_of_mem r hr'))
      obtain ⟨ha', hb', hc', hd''⟩ := workerRunSteps_preserve d
        ((keys.drop r.1).take (r.2 - r.1)) B (att r.1) k (h r (List.mem_cons_self r rs'))
      exact ⟨ha.trans ha', hb.trans hb', hc.trans hc', hd'.trans hd''⟩

/-- Worker `r` owns key `k` and dropped it as a `Match`: both its merged
entries exist and the comparator classified them equal (see
`workerMatched`). -/
def workerMatchedSteps (keys : List String) (B : Nat) (att1 : Nat → List (List CBStep))
    (r : Nat × Nat) (k : String) : Bool :=
  decide (k ∈ (keys.drop r.1).take (r.2 - r.1)) &&
    match alookup (workerStateOfSteps ((keys.drop r.1).take (r.2 - r.1)) B
        att1).sourceResults k,
        alookup (workerStateOfSteps ((keys.drop r.1).take (r.2 - r.1)) B
          att1).targetResults k with
    | some sr, some tr => decide (classifyKey sr tr = .matched)
    | _, _ => false

/-- Some worker dropped candidate key `k` as a `Match` (see
`matchedInRun`). -/
def matchedInRunSteps (keys : List String) (W B : Nat)
    (att : Nat → Nat → List (List CBStep)) (k : String) : Bool :=
  (balanceLoad W keys.length).any (fun r => workerMatchedSteps keys B (att r.1) r k)

theorem workerMatchedSteps_of_not_mem (keys : List String) (B : Nat)
    (att1 : Nat → List (List CBStep)) (r : Nat × Nat) (k : String)
    (h : k ∉ (keys.drop r.1).take (r.2 - r.1)) :
    workerMatchedSteps keys B att1 r k = false := by
  unfold workerMatchedSteps
  simp [h]

/-- The five buckets of claim C1 for one candidate key after a full run over
the fine-grained callback model: member of the global error-key list,
present in one of the three global diff mappings, or dropped as a `Match` by
its worker. -/
def keyBucketsSteps (keys : List String) (W B : Nat)
    (att : Nat → Nat → List (List CBStep)) (k : String) : List Bool :=
  [decide (k ∈ (differRunSteps keys W B att).keysWithError),
    (alookup (differRunSteps keys W B att).missingFromSource k).isSome,
    (alookup (differRunSteps keys W B att).missingFromTarget k).isSome,
    (alookup (differRunSteps keys W B att).diff k).isSome,
    matchedInRunSteps keys W B att k]

/-- The Go control-flow contract over a whole run: in every batch attempt of
every worker, the callback actions obey `validSteps` for that batch's
keys. -/
def validAttemptsSteps (keys : List String) (W B : Nat)
    (att : Nat → Nat → List (List CBStep)) : Prop :=
  ∀ r ∈ balanceLoad W keys.length,
    ∀ br ∈ getResultsBatches ((keys.drop r.1).take (r.2 - r.1)).length B,
      ∀ st ∈ att r.1 br.1,
        validSteps (((keys.drop r.1).take (r.2 - r.1)).drop br.1 |>.take (br.2 - br.1)) st

instance validAttemptsStepsDecidable (keys : List String) (W B : Nat)
    (att : Nat → Nat → List (List CBStep)) : Decidable (validAttemptsSteps keys W B att) := by
  unfold validAttemptsSteps
  infer_instance

/-- No callback of any batch attempt of the run was preempted between its
counter increment and its entry write: every counted entry was written
before the merge. -/
def writeCompleteAttempts (keys : List String) (W B : Nat)
    (att : Nat → Nat → List (List CBStep)) : Prop :=
  ∀ r ∈ balanceLoad W keys.length,
    ∀ br ∈ getResultsBatches ((keys.drop r.1).take (r.2 - r.1)).length B,
      ∀ st ∈ att r.1 br.1, writeComplete st

instance writeCompleteAttemptsDecidable (keys : List String) (W B : Nat)
    (att : Nat → Nat → List (List CBStep)) :
    Decidable (writeCompleteAttempts keys W B att) := by
  unfold writeCompleteAttempts
  infer_instance

theorem matchedInRunSteps_split (keys : List String) (W B : Nat)
    (att : Nat → Nat → List (List CBStep)) (k : String)
    (rs₁ : List (Nat × Nat)) (r : Nat × Nat) (rs₂ : List (Nat × Nat))
    (heq : balanceLoad W keys.length = rs₁ ++ r :: rs₂)
    (hn1 : ∀ q ∈ rs₁, k ∉ (keys.drop q.1).take (q.2 - q.1))
    (hn2 : ∀ q ∈ rs₂, k ∉ (keys.drop q.1).take (q.2 - q.1)) :
    matchedInRunSteps keys W B att k = workerMatchedSteps keys B (att r.1) r k := by
  unfold matchedInRunSteps
  rw [heq, List.any_append, List.any_cons]
  have hA1 : (rs₁.any fun q => workerMatchedSteps keys B (att q.1) q k) = false := by
    rw [List.any_eq_false]
    intro q hq
    rw [workerMatchedSteps_of_not_mem keys B (att q.1) q k (hn1 q hq)]
    simp
  have hA2 : (rs₂.any fun q => workerMatchedSteps keys B (att q.1) q k) = false := by
    rw [List.any_eq_false]
    intro q hq
    rw [workerMatchedSteps_of_not_mem keys B (att q.1) q k (hn2 q hq)]
    simp
  rw [hA1, hA2]
  simp

/-- Claim C1 (amended): assuming the candidate keys are pairwise distinct
and every batch attempt's callback actions obey the Go control flow
(`validSteps`), every candidate key ends up, once all workers finish, in AT
MOST one of the five buckets — the global error-key list, the
MissingFromSource mapping, the MissingFromTarget mapping, the Mismatch
(diff) mapping, or silently dropped as a Match — and in EXACTLY one
provided the key is non-empty and every counted callback's entry write
executed before the merge (`writeCompleteAttempts`).  Without that proviso
a key can end up in NO bucket: `getCallbackFunc` increments the completion
counter before writing the entry, so a successful send can hand the merge a
still-empty placeholder, whose `Key == ""` makes `DifferWorker.diff` skip
the key (see the counterexample); the empty-string candidate key is skipped
the same way even when fully written. -/
theorem c1_bucket_partition (keys : List String) (W B : Nat)
    (att : Nat → Nat → List (List CBStep)) (k : String)
    (hW : 0 < W) (hB : 0 < B) (hnd : keys.Nodup) (hk : k ∈ keys)
    (hv : validAttemptsSteps keys W B att) :
    (keyBucketsSteps keys W B att k).count true ≤ 1 ∧
      (writeCompleteAttempts keys W B att → k ≠ "" →
        (keyBucketsSteps keys W B att k).count true = 1) := by
  have hcover : ((balanceLoad W keys.length).map
      (fun r => (keys.drop r.1).take (r.2 - r.1))).flatten = keys := by
    have h := balanceLoadAux_cover keys W keys.length 0 hW
    simpa using h
  have hcount : ((balanceLoad W keys.length).map
      (fun r => (keys.drop r.1).take (r.2 - r.1))).flatten.count k = 1 := by
    rw [hcover]
    exact List.count_eq_one_of_mem hnd hk
  obtain ⟨rs₁, r, rs₂, heq, hkr, hn1, hn2⟩ :=
    exists_unique_split (fun (q : Nat × Nat) => (keys.drop q.1).take (q.2 - q.1)) k _ hcount
  have hrne : ¬ r.1 = r.2 := by
    intro h12
    rw [h12] at hkr
    simp at hkr
  have hrunEq : differRunSteps keys W B att =
      rs₂.foldl (fun d r => if r.1 = r.2 then d
        else workerRunSteps d ((keys.drop r.1).take (r.2 - r.1)) B (att r.1))
        (workerRunSteps (rs₁.foldl (fun d r => if r.1 = r.2 then d
            else workerRunSteps d ((keys.drop r.1).take (r.2 - r.1)) B (att r.1))
            initialDifferState)
          ((keys.drop r.1).take (r.2 - r.1)) B (att r.1)) := by
    unfold differRunSteps
    rw [heq, List.foldl_append, List.foldl_cons, if_neg hrne]
  obtain ⟨hd1e, hd1s, hd1t, hd1d⟩ :=
    workersFoldSteps_preserve keys B att k rs₁ initialDifferState hn1
  have hd1kwe : k ∉ (rs₁.foldl (fun d r => if r.1 = r.2 then d
      else workerRunSteps d ((keys.drop r.1).take (r.2 - r.1)) B (att r.1))
      initialDifferState).keysWithError := by
    intro h
    have h' := hd1e.mp h
    simp [initialDifferState] at h'
  have hd1s' : alookup (rs₁.foldl (fun d r => if r.1 = r.2 then d
      else workerRunSteps d ((keys.drop r.1).take (r.2 - r.1)) B (att r.1))
      initialDifferState).missingFromSource k = none := hd1s.trans rfl
  have hd1t' : alookup (rs₁.foldl (fun d r => if r.1 = r.2 then d
      else workerRunSteps d ((keys.drop r.1).take (r.2 - r.1)) B (att r.1))
      initialDifferState).missingFromTarget k = none := hd1t.trans rfl
  have hd1d' : alookup (rs₁.foldl (fun d r => if r.1 = r.2 then d
      else workerRunSteps d ((keys.drop r.1).take (r.2 - r.1)) B (att r.1))
      initialDifferState).diff k = none := hd1d.trans rfl
  have hndsl : ((keys.drop r.1).take (r.2 - r.1)).Nodup :=
    ((List.take_sublist _ _).trans (List.drop_sublist _ _)).nodup hnd
  have hrmem : r ∈ balanceLoad W keys.length := by
    rw [heq]
    exact List.mem_append_right _ (List.mem_cons_self r rs₂)
  have hvr := hv r hrmem
  obtain ⟨hfe, hfs, hft, hfd⟩ := workersFoldSteps_preserve keys B att k rs₂
    (workerRunSteps (rs₁.foldl (fun d r => if r.1 = r.2 then d
        else workerRunSteps d ((keys.drop r.1).take (r.2 - r.1)) B (att r.1))
        initialDifferState)
      ((keys.drop r.1).take (r.2 - r.1)) B (att r.1)) hn2
  rcases workerRunSteps_key_fate (rs₁.foldl (fun d r => if r.1 = r.2 then d
      else workerRunSteps d ((keys.drop r.1).take (r.2 - r.1)) B (att r.1))
      initialDifferState)
      ((keys.drop r.1).take (r.2 - r.1)) B (att r.1) k hB hndsl hkr hvr hd1kwe
    with hfail | hsucc
  · -- the key's batch exhausted its retries: only the error bucket holds it
    obtain ⟨hE2, hm1, hm2, hm3, hws, hwt⟩ := hfail
    have hstE : k ∈ (differRunSteps keys W B att).keysWithError := by
      rw [hrunEq]
      exact hfe.mpr hE2
    have hst1 : alookup (differRunSteps keys W B att).missingFromSource k = none := by
      rw [hrunEq]
      exact hfs.trans (hm1.trans hd1s')
    have hst2 : alookup (differRunSteps keys W B att).missingFromTarget k = none := by
      rw [hrunEq]
      exact hft.trans (hm2.trans hd1t')
    have hst3 : alookup (differRunSteps keys W B att).diff k = none := by
      rw [hrunEq]
      exact hfd.trans (hm3.trans hd1d')
    have hM : matchedInRunSteps keys W B att k = false := by
      rw [matchedInRunSteps_split keys W B att k rs₁ r rs₂ heq hn1 hn2]
      unfold workerMatchedSteps
      rw [hws, hwt]
      simp
    have hlist : keyBucketsSteps keys W B att k = [true, false, false, false, false] := by
      unfold keyBucketsSteps
      rw [hst1, hst2, hst3, hM]
      simp [hstE]
    refine ⟨?_, fun _ _ => ?_⟩ <;> rw [hlist] <;> decide
  · -- the key's batch succeeded: the merged pair's classification decides
    obtain ⟨sr, tr, hws, hwt, hds, hdt, himp, hE2, hm1, hm2, hm3⟩ := hsucc
    have hstE : k ∉ (differRunSteps keys W B att).keysWithError := by
      rw [hrunEq]
      intro h
      exact hE2 (hfe.mp h)
    have hst1 : alookup (differRunSteps keys W B att).missingFromSource k =
        ofirst (classOutMfs (classifyKey sr tr)) none := by
      rw [hrunEq]
      exact hfs.trans (hm1.trans (by rw [hd1s']))
    have hst2 : alookup (differRunSteps keys W B att).missingFromTarget k =
        ofirst (classOutMft (classifyKey sr tr)) none := by
      rw [hrunEq]
      exact hft.trans (hm2.trans (by rw [hd1t']))
    have hst3 : alookup (differRunSteps keys W B att).diff k =
        ofirst (classOutDiff (classifyKey sr tr)) none := by
      rw [hrunEq]
      exact hfd.trans (hm3.trans (by rw [hd1d']))
    have hM : matchedInRunSteps keys W B att k = decide (classifyKey sr tr = .matched) := by
      rw [matchedInRunSteps_split keys W B att k rs₁ r rs₂ heq hn1 hn2]
      unfold workerMatchedSteps
      rw [hws, hwt]
      simp [hkr]
    have hmain : (classifyKey sr tr = .skipped ∧
          (keyBucketsSteps keys W B att k).count true = 0) ∨
        (keyBucketsSteps keys W B att k).count true = 1 := by
      cases hcl : classifyKey sr tr with
      | skipped =>
        refine Or.inl ⟨rfl, ?_⟩
        have hlist : keyBucketsSteps keys W B att k =
            [false, false, false, false, false] := by
          unfold keyBucketsSteps
          rw [hst1, hst2, hst3, hM, hcl]
          simp [classOutMfs, classOutMft, classOutDiff, ofirst, hstE]
        rw [hlist]
        rfl
      | missingFromSource doc =>
        right
        have hlist : keyBucketsSteps keys W B att k =
            [false, true, false, false, false] := by
          unfold keyBucketsSteps
          rw [hst1, hst2, hst3, hM, hcl]
          simp [classOutMfs, classOutMft, classOutDiff, ofirst, hstE]
        rw [hlist]
        rfl
      | missingFromTarget doc =>
        right
        have hlist : keyBucketsSteps keys W B att k =
            [false, false, true, false, false] := by
          unfold keyBucketsSteps
          rw [hst1, hst2, hst3, hM, hcl]
          simp [classOutMfs, classOutMft, classOutDiff, ofirst, hstE]
        rw [hlist]
        rfl
      | mismatch s t =>
        right
        have hlist : keyBucketsSteps keys W B att k =
            [false, false, false, true, false] := by
          unfold keyBucketsSteps
          rw [hst1, hst2, hst3, hM, hcl]
          simp [classOutMfs, classOutMft, classOutDiff, ofirst, hstE]
        rw [hlist]
        rfl
      | matched =>
        right
        have hlist : keyBucketsSteps keys W B att k =
            [false, false, false, false, true] := by
          unfold keyBucketsSteps
          rw [hst1, hst2, hst3, hM, hcl]
          simp [classOutMfs, classOutMft, classOutDiff, ofirst, hstE]
        rw [hlist]
        rfl
    constructor
    · rcases hmain with ⟨_, h0⟩ | h1
      · rw [h0]
        exact Nat.zero_le 1
      · exact le_of_eq h1
    · intro hwc hne
      obtain ⟨hsk, htk⟩ := himp (hwc r hrmem)
      rcases hmain with ⟨hskip, _⟩ | h1
      · exact absurd hskip (classifyKey_ne_skipped sr tr
          (by rw [hsk]; exact hne) (by rw [htk]; exact hne))
      · exact h1

/-- Claim C1, counterexample: an execution the program allows in which a
NON-EMPTY candidate key lands in NONE of the five buckets, refuting the
claim's "never in none".  Key "a"'s source callback increments the
completion counter but is preempted before writing its entry; key "b"'s
source callback completes the count and releases the gate after its own
write; the target side completes fully.  The send succeeds, so "a" stays
off the error list, but the source entry merged for "a" is the empty
placeholder: `DifferWorker.diff` sees `Key == ""` and skips the key, so it
reaches no diff mapping, is not a recorded Match, and is in no bucket —
even though the callbacks obeyed the Go control flow. -/
theorem c1_counterexample :
    ("a" ∈ (["a", "b"] : List String)) ∧ "a" ≠ "" ∧
      validAttemptsSteps ["a", "b"] 1 2 (fun _ _ =>
        [[.inc "a" true,
          .inc "b" true, .write "b" true (some ⟨some [1], 0, 0, 1⟩) none,
          .inc "a" false, .write "a" false (some ⟨some [1], 0, 0, 1⟩) none,
          .inc "b" false, .write "b" false (some ⟨some [1], 0, 0, 1⟩) none]]) ∧
      (keyBucketsSteps ["a", "b"] 1 2 (fun _ _ =>
        [[.inc "a" true,
          .inc "b" true, .write "b" true (some ⟨some [1], 0, 0, 1⟩) none,
          .inc "a" false, .write "a" false (some ⟨some [1], 0, 0, 1⟩) none,
          .inc "b" false, .write "b" false (some ⟨some [1], 0, 0, 1⟩) none]]) "a").count
        true = 0 := by
  refine ⟨by decide, by decide, by decide, by decide⟩

/-- Claim C1 witness: a one-key run whose batch succeeds with both callbacks
fully landed (counted and written, so the run is write-complete) puts the
key in exactly one bucket — here the Match bucket. -/
theorem c1_bucket_partition_witness :
    (keyBucketsSteps ["k1"] 1 1 (fun _ _ =>
      [[.inc "k1" true, .write "k1" true (some ⟨some [1], 0, 0, 5⟩) none,
        .inc "k1" false, .write "k1" false (some ⟨some [1], 0, 0, 5⟩) none]])
      "k1").count true = 1 :=
  (c1_bucket_partition ["k1"] 1 1 (fun _ _ =>
      [[.inc "k1" true, .write "k1" true (some ⟨some [1], 0, 0, 5⟩) none,
        .inc "k1" false, .write "k1" false (some ⟨some [1], 0, 0, 5⟩) none]]) "k1"
    (by decide) (by decide) (by decide) (by decide) (by decide)).2 (by decide) (by decide)

end Differ
